import Mathlib

/-!
A verification development for the burz chat-bot gateway client.

The Rust sources are embedded shallowly: pure functions become Lean
functions, the asynchronous reader loops become explicit transition
functions over their state, machine integers (u64, i64) become Nat/Int
(no claim here depends on 64-bit overflow), and fallible code returns
Except/Option.  JSON values (serde_json::Value) are modelled by an
inductive `Json` whose numbers are integers: the codec paths verified
here never build or inspect non-integer numbers, and opaque payloads are
carried around unexamined, so nothing is lost on the claims below.
-/

namespace Burz

/-- Model of serde_json::Value.  Objects are association lists; serde_json
stores a BTreeMap, so in values produced by parsing or by the encoder the
keys are distinct, and the `objGet`/`objInsert`/`objRemove` helpers below
implement exactly the map operations the codec uses. -/
inductive Json where
  | null
  | bool (b : Bool)
  | num (n : Int)
  | str (s : String)
  | arr (elems : List Json)
  | obj (fields : List (String × Json))

/-- Map lookup, as serde_json Map::get on a map with distinct keys. -/
def objGet (o : List (String × Json)) (k : String) : Option Json :=
  match o with
  | [] => none
  | (k', v) :: rest => if k' = k then some v else objGet rest k

/-- Map insert (replace the key if present), as serde_json Map::insert. -/
def objInsert (o : List (String × Json)) (k : String) (v : Json) :
    List (String × Json) :=
  (o.filter (fun p => p.1 ≠ k)) ++ [(k, v)]

/-- Map remove, as serde_json Map::remove. -/
def objRemove (o : List (String × Json)) (k : String) : List (String × Json) :=
  o.filter (fun p => p.1 ≠ k)

/-- serde_json Value::as_i64: integer numbers only. -/
def Json.asI64 : Json → Option Int
  | .num n => some n
  | _ => none

/-- serde u64 deserialization from a Value: a non-negative integer number. -/
def Json.asU64 : Json → Option Nat
  | .num n => if 0 ≤ n then some n.toNat else none
  | _ => none

/-- serde String deserialization from a Value. -/
def Json.asStr : Json → Option String
  | .str s => some s
  | _ => none

/- ===== src/ws/message/types.rs and src/ws/event.rs: the typed payloads ===== -/

/-- src/ws/message/types.rs OnlyData: a wrapper holding the d field. -/
structure OnlyData (D : Type) where
  data : D

/-- src/ws/message/types.rs Hello. -/
structure Hello where
  code : Int
  session_id : Option String

/-- src/ws/message/types.rs SN. -/
structure SN where
  sn : Nat

/-- src/ws/message/types.rs Reconnect. -/
structure Reconnect where
  code : Int
  err : String

/-- src/ws/message/types.rs ResumeACK. -/
structure ResumeACK where
  session_id : String

/-- src/ws/event.rs Event: an opaque JSON payload (pub type Event = serde_json::Value). -/
def Event : Type := Json

/-- src/ws/event.rs EventData: the serial number plus the opaque event body
(serialized under the d key). -/
structure EventData where
  sn : Nat
  event : Event

/-- src/ws/message/mod.rs Message: the tagged wire frame. -/
inductive Message where
  | event (d : EventData)
  | hello (d : OnlyData Hello)
  | ping (d : SN)
  | pong
  | resume (d : SN)
  | reconnect (d : OnlyData Reconnect)
  | resumeACK (d : OnlyData ResumeACK)

/-- src/ws/message/mod.rs ParseMessageError.  The variants keep the data that
identifies them; the purely diagnostic payloads of the Rust variants (the raw
bytes, the offending JSON text, the serde source error) are dropped, since no
code path inspects them. -/
inductive ParseMessageError where
  | decompressFailed
  | parseJSONFailed
  | messageNotObject
  | noMessageType
  | messageTypeNotNumber
  | unknownMessageType (t : Int)
  | parseJSONToTypedMessageFailed (type_name : String)

def MESSAGE_INTERNAL_TYPE_TAG : String := "__internal_type_tag__"

/-- src/ws/message/mod.rs Message::type_number_to_type_name. -/
def typeNumberToTypeName (s : Int) : Option String :=
  if s = 0 then some "Event"
  else if s = 1 then some "Hello"
  else if s = 2 then some "Ping"
  else if s = 3 then some "Pong"
  else if s = 4 then some "Resume"
  else if s = 5 then some "Reconnect"
  else if s = 6 then some "ResumeACK"
  else none

/-- src/ws/message/mod.rs Message::type_number. -/
def Message.type_number : Message → Int
  | .event _ => 0
  | .hello _ => 1
  | .ping _ => 2
  | .pong => 3
  | .resume _ => 4
  | .reconnect _ => 5
  | .resumeACK _ => 6

/- serde serialization of each payload, as the derived Serialize emits it. -/

/-- serde Serialize for EventData: sn, then the body under d. -/
def EventData.toFields (d : EventData) : List (String × Json) :=
  [("sn", .num d.sn), ("d", d.event)]

/-- serde Serialize for Hello: session_id is skipped when None
(skip_serializing_if Option::is_none). -/
def Hello.toFields (h : Hello) : List (String × Json) :=
  ("code", .num h.code) ::
    (match h.session_id with
     | some s => [("session_id", .str s)]
     | none => [])

def SN.toFields (x : SN) : List (String × Json) :=
  [("sn", .num x.sn)]

def Reconnect.toFields (r : Reconnect) : List (String × Json) :=
  [("code", .num r.code), ("err", .str r.err)]

def ResumeACK.toFields (r : ResumeACK) : List (String × Json) :=
  [("session_id", .str r.session_id)]

/-- serde Serialize for OnlyData: the payload under the d key. -/
def OnlyData.toFields {D : Type} (f : D → Json) (o : OnlyData D) :
    List (String × Json) :=
  [("d", f o.data)]

/-- serde_json::to_value of a Message with the internal tag
(serde(tag = "__internal_type_tag__")): the variant name under the tag key and
the variant payload fields inlined beside it. -/
def Message.toValue : Message → List (String × Json)
  | .event d => (MESSAGE_INTERNAL_TYPE_TAG, .str "Event") :: d.toFields
  | .hello d =>
      (MESSAGE_INTERNAL_TYPE_TAG, .str "Hello") ::
        d.toFields (fun h => .obj h.toFields)
  | .ping d => (MESSAGE_INTERNAL_TYPE_TAG, .str "Ping") :: d.toFields
  | .pong => [(MESSAGE_INTERNAL_TYPE_TAG, .str "Pong")]
  | .resume d => (MESSAGE_INTERNAL_TYPE_TAG, .str "Resume") :: d.toFields
  | .reconnect d =>
      (MESSAGE_INTERNAL_TYPE_TAG, .str "Reconnect") ::
        d.toFields (fun r => .obj r.toFields)
  | .resumeACK d =>
      (MESSAGE_INTERNAL_TYPE_TAG, .str "ResumeACK") ::
        d.toFields (fun r => .obj r.toFields)

/- serde deserialization of each payload, as the derived Deserialize reads it:
required fields must be present with the right type, unknown fields are
ignored. -/

/-- serde Deserialize for EventData from an object. -/
def parseEventData (o : List (String × Json)) : Option EventData := do
  let sn ← (objGet o "sn").bind Json.asU64
  let d ← objGet o "d"
  pure ⟨sn, d⟩

/-- serde Deserialize for Hello from an object: an absent or null session_id
is None, any other non-string value is an error. -/
def parseHello (o : List (String × Json)) : Option Hello := do
  let code ← (objGet o "code").bind Json.asI64
  match objGet o "session_id" with
  | none => pure ⟨code, none⟩
  | some .null => pure ⟨code, none⟩
  | some (.str s) => pure ⟨code, some s⟩
  | some _ => none

def parseSN (o : List (String × Json)) : Option SN := do
  let sn ← (objGet o "sn").bind Json.asU64
  pure ⟨sn⟩

def parseReconnect (o : List (String × Json)) : Option Reconnect := do
  let code ← (objGet o "code").bind Json.asI64
  let err ← (objGet o "err").bind Json.asStr
  pure ⟨code, err⟩

def parseResumeACK (o : List (String × Json)) : Option ResumeACK := do
  let sid ← (objGet o "session_id").bind Json.asStr
  pure ⟨sid⟩

/-- serde Deserialize for OnlyData: the d field must be present and its value
an object parsed by the payload parser. -/
def parseOnlyData {D : Type} (f : List (String × Json) → Option D)
    (o : List (String × Json)) : Option (OnlyData D) := do
  match objGet o "d" with
  | some (.obj inner) => (f inner).map (⟨·⟩)
  | _ => none

/-- serde_json::from_value for Message: dispatch on the internal tag, parse
the variant payload from the same object (extra fields such as s are
ignored). -/
def Message.fromValueTagged (o : List (String × Json)) : Option Message :=
  match (objGet o MESSAGE_INTERNAL_TYPE_TAG).bind Json.asStr with
  | some "Event" => (parseEventData o).map .event
  | some "Hello" => (parseOnlyData parseHello o).map .hello
  | some "Ping" => (parseSN o).map .ping
  | some "Pong" => some .pong
  | some "Resume" => (parseSN o).map .resume
  | some "Reconnect" => (parseOnlyData parseReconnect o).map .reconnect
  | some "ResumeACK" => (parseOnlyData parseResumeACK o).map .resumeACK
  | _ => none

/-- src/ws/message/mod.rs Message::decode with compressed = false: the inflate
step is skipped, and the byte/JSON-text layer (serde_json::from_slice), being
invertible on the values involved, is modelled as the identity, so the input
is the parsed Json value.  The step structure is the source's: object check,
read s, map the number to a variant name, insert the internal tag, parse the
typed message. -/
def Message.decode (value : Json) : Except ParseMessageError Message := do
  let o ← match value with
    | .obj o => pure o
    | _ => throw .messageNotObject
  let sv ← match objGet o "s" with
    | some v => pure v
    | none => throw .noMessageType
  let s ← match sv.asI64 with
    | some n => pure n
    | none => throw .messageTypeNotNumber
  let type_name ← match typeNumberToTypeName s with
    | some n => pure n
    | none => throw (.unknownMessageType s)
  let o' := objInsert o MESSAGE_INTERNAL_TYPE_TAG (.str type_name)
  match Message.fromValueTagged o' with
  | some m => pure m
  | none => throw (.parseJSONToTypedMessageFailed type_name)

/-- src/ws/message/mod.rs Message::encode: serialize with the internal tag,
remove the tag, insert s with the discriminant.  Total, as in the source
(encode never fails). -/
def Message.encode (m : Message) : Json :=
  .obj (objInsert (objRemove m.toValue MESSAGE_INTERNAL_TYPE_TAG) "s"
    (.num m.type_number))

/- ===== src/ws/message/stream.rs: the framed transport adaptor ===== -/

/-- The tungstenite websocket error: external to the repository, modelled by
its display text; only its presence matters to the claims. -/
structure WsError where
  description : String

/-- src/ws/message/stream.rs MessageStreamSinkError. -/
inductive MessageStreamSinkError where
  | websocket (source : WsError)
  | notBinaryFrame
  | parseMessageFailed (source : ParseMessageError)

/-- src/ws/message/stream.rs MessageStreamSinkError::is_fatal. -/
def MessageStreamSinkError.is_fatal : MessageStreamSinkError → Bool
  | .websocket _ => true
  | .notBinaryFrame => false
  | .parseMessageFailed source =>
      !(match source with
        | .unknownMessageType _ => true
        | _ => false)

/-- src/ws/client/inner/connected.rs real_wait_hello: the predicate of the
stream filter; skip = matches(result, Err(e) if not e.is_fatal()), and the
filter keeps the items with not skip. -/
def keepMessageItem (result : Except MessageStreamSinkError Message) : Bool :=
  !(match result with
    | .error e => !e.is_fatal
    | .ok _ => false)

/-- src/ws/client/inner/connected.rs real_wait_hello: the filtered message
stream (non-fatal errors dropped), modelled over the item sequence. -/
def filterMessageStream (items : List (Except MessageStreamSinkError Message)) :
    List (Except MessageStreamSinkError Message) :=
  items.filter keepMessageItem

/- ===== src/api/types.rs GatewayResumeArguments, and
   src/ws/client/inner/streaming/buffer.rs EventBuffer ===== -/

/-- src/api/types.rs GatewayResumeArguments (the ResumeState). -/
structure GatewayResumeArguments where
  sn : Nat
  session_id : String
deriving DecidableEq

/-- derive(Default) for GatewayResumeArguments: sn 0, empty session id. -/
def GatewayResumeArguments.mkDefault : GatewayResumeArguments :=
  { sn := 0, session_id := "" }

/-- src/api/types.rs GatewayResumeArguments::ping. -/
def GatewayResumeArguments.ping (r : GatewayResumeArguments) : Message :=
  .ping ⟨r.sn⟩

/-- src/ws/client/inner/connected.rs wait_hello:
resume.take().unwrap_or_default() seeds a run from the optional pre-run
resume state. -/
def initialResume (resume : Option GatewayResumeArguments) :
    GatewayResumeArguments :=
  resume.getD GatewayResumeArguments.mkDefault

/-- src/ws/client/inner/streaming/buffer.rs EventBuffer: the HashSet of
buffered sn values plus the min-heap of events.  The heap
(BinaryHeap of Reverse EventData, ordered by sn) is modelled as a list kept
sorted by ascending sn, whose head is the heap top; put never stores two
entries with one sn, so this determines the heap completely. -/
structure EventBuffer where
  exist : List Nat
  buffer : List EventData

/-- BinaryHeap push under the Reverse-by-sn order: ordered insertion. -/
def insertBySn (item : EventData) : List EventData → List EventData
  | [] => [item]
  | x :: xs =>
      if item.sn ≤ x.sn then item :: x :: xs else x :: insertBySn item xs

/-- src/ws/client/inner/streaming/buffer.rs EventBuffer::put: drop the event
when its sn is not beyond the cursor or is already buffered, else record the
sn and push. -/
def EventBuffer.put (b : EventBuffer) (sn : Nat) (item : EventData) :
    EventBuffer :=
  if item.sn ≤ sn || b.exist.contains item.sn then b
  else { exist := item.sn :: b.exist, buffer := insertBySn item b.buffer }

/-- src/ws/client/inner/streaming/buffer.rs EventBuffer::peek. -/
def EventBuffer.peek (b : EventBuffer) : Option EventData :=
  b.buffer.head?

/-- src/ws/client/inner/streaming/buffer.rs EventsCanBeSend::next, iterated to
exhaustion as EventStreamSender::flush does: starting from the cursor, pop the
heap top while its sn is exactly the cursor plus one, advancing the cursor;
returns the final exist set, the remaining heap and the popped events in pop
order.  (EventBuffer::pop removes the popped sn from the exist set.) -/
def drainFrom (sn : Nat) (exist : List Nat) :
    List EventData → List Nat × List EventData × List EventData
  | [] => (exist, [], [])
  | x :: xs =>
      if x.sn = sn + 1 then
        let r := drainFrom (sn + 1) (exist.erase x.sn) xs
        (r.1, r.2.1, x :: r.2.2)
      else (exist, x :: xs, [])

/- ===== src/ws/client/inner/streaming/sender.rs: SnRecorder and
   EventStreamSender ===== -/

/-- src/ws/client/inner/streaming/sender.rs SnRecorder::update_sn: advance the
resume sn when the new value is larger.  The watch notification it performs
is modelled as always delivered (its receiver alive for the whole run); the
Bool result of the source is therefore constantly true and omitted. -/
def update_sn (r : GatewayResumeArguments) (val : Nat) :
    GatewayResumeArguments :=
  if r.sn < val then { r with sn := val } else r

/-- src/ws/client/inner/streaming/sender.rs EventStreamSender: the buffer and
the recorded resume state.  The bounded mpsc channel is modelled by the lists
of items the operations below return (the consumer side alive for the whole
run), and the sn watch pair is dropped as in update_sn above. -/
structure EventStreamSender where
  buffer : EventBuffer
  resume : GatewayResumeArguments

/-- src/ws/client/inner/streaming/sender.rs EventStreamSender::sn. -/
def EventStreamSender.sn (s : EventStreamSender) : Nat :=
  s.resume.sn

/-- src/ws/client/inner/streaming/sender.rs EventStreamSender::flush: send
every event of events_can_be_sent(self.sn()) to the channel, recording each
sent sn with update_sn.  Returns the new sender state and the events put on
the channel, in order. -/
def EventStreamSender.flush (s : EventStreamSender) :
    EventStreamSender × List EventData :=
  let r := drainFrom s.sn s.buffer.exist s.buffer.buffer
  ({ buffer := ⟨r.1, r.2.1⟩,
     resume := r.2.2.foldl (fun acc d => update_sn acc d.sn) s.resume },
   r.2.2)

/-- src/ws/client/inner/streaming/sender.rs EventStreamSender::put. -/
def EventStreamSender.put (s : EventStreamSender) (event : EventData) :
    EventStreamSender :=
  { s with buffer := s.buffer.put s.sn event }

/-- src/ws/client/inner/streaming/sender.rs EventStreamSender::send_event:
put, then flush. -/
def EventStreamSender.send_event (s : EventStreamSender) (event : EventData) :
    EventStreamSender × List EventData :=
  (s.put event).flush

/-- src/ws/client/inner/streaming/state.rs streaming_background, Event arm:
send_event on the received EventData, then update the recorder with the
received sn (state.sender.update_sn(data.sn)). -/
def readerEventStep (s : EventStreamSender) (data : EventData) :
    EventStreamSender × List EventData :=
  let r := s.send_event data
  ({ r.1 with resume := update_sn r.1.resume data.sn }, r.2)

/-- The reader run restricted to Event frames: fold readerEventStep over the
frames, concatenating the events delivered to the consumer channel. -/
def runEvents (s : EventStreamSender) :
    List EventData → EventStreamSender × List EventData
  | [] => (s, [])
  | d :: ds =>
      let r := readerEventStep s d
      let rest := runEvents r.1 ds
      (rest.1, r.2 ++ rest.2)

/-- src/ws/client/inner/streaming/sender.rs EventStreamSender::new: fresh
buffer, channel, and the given resume state. -/
def initSender (resume : GatewayResumeArguments) : EventStreamSender :=
  { buffer := ⟨[], []⟩, resume }

/- ===== src/ws/client/inner/gateway.rs and connected.rs error types, and
   src/ws/client/inner/streaming/stream.rs EventStreamError ===== -/

/-- src/ws/client/inner/gateway.rs ConnectGatewayError: the attempted URL and
the underlying websocket error. -/
structure ConnectGatewayError where
  url : String
  source : WsError

/-- src/ws/client/inner/connected.rs WaitHelloError. -/
inductive WaitHelloError where
  | timeout
  | messageStream (source : MessageStreamSinkError)
  | messageNotHello
  | helloMessageCodeNotZero (code : Int)
  | helloMessageNoSessionId

/-- src/ws/client/inner/streaming/stream.rs EventStreamErrorKind. -/
inductive EventStreamErrorKind where
  | messageStream (source : MessageStreamSinkError)
  | reconnect (code : Int) (message : String)
  | reConnectGatewayFailed (source : ConnectGatewayError)
  | reWaitHelloFailed (source : WaitHelloError)

/-- src/ws/client/inner/streaming/stream.rs EventStreamError: the resume state
for the next connection plus the error kind. -/
structure EventStreamError where
  resume : GatewayResumeArguments
  source : EventStreamErrorKind

/-- src/ws/client/inner/streaming/sender.rs EventStreamSender::send_err: the
error enqueued on the consumer channel carries a clone of the current resume
state. -/
def EventStreamSender.send_err (s : EventStreamSender)
    (err : EventStreamErrorKind) : EventStreamError :=
  { resume := s.resume, source := err }

/-- An item the streaming reader receives from the (filtered, split) message
stream: a decoded message or a fatal transport error. -/
inductive StreamItem where
  | ok (m : Message)
  | err (e : MessageStreamSinkError)

/-- The items that make the streaming reader enqueue a terminal error and
stop: a Reconnect frame, or a (fatal) stream error. -/
def StreamItem.isTerminal : StreamItem → Bool
  | .ok (.reconnect _) => true
  | .err _ => true
  | .ok _ => false

/-- An item on the consumer channel, tagged by the task whose cloned sender
enqueued it: the streaming reader of state.rs enqueues delivered events and
its terminal error; the ping worker of ping.rs enqueues its feed-failure
error through the sender clone made at state.rs (streaming_background). -/
inductive ChannelItem where
  | fromReader (item : Except EventStreamError Event)
  | fromWorker (e : EventStreamError)

/-- Whether a channel item was enqueued by the streaming reader. -/
def ChannelItem.isFromReader : ChannelItem → Bool
  | .fromReader _ => true
  | .fromWorker _ => false

/-- Whether a channel item was enqueued by the ping worker. -/
def ChannelItem.isFromWorker : ChannelItem → Bool
  | .fromWorker _ => true
  | .fromReader _ => false

/-- Whether a channel item is the streaming reader's terminal error. -/
def ChannelItem.isReaderError : ChannelItem → Bool
  | .fromReader (.error _) => true
  | .fromReader (.ok _) => false
  | .fromWorker _ => false

/-- The error a channel item carries, if it carries one. -/
def ChannelItem.errOf : ChannelItem → Option EventStreamError
  | .fromReader (.ok _) => none
  | .fromReader (.error e) => some e
  | .fromWorker e => some e

/-- The joint state of the two tasks holding a sender for the consumer
channel (state.rs streaming_background): the reader task with its
EventStreamSender, and the ping worker spawned with a clone of that sender —
a fresh empty buffer and a cloned recorder (sender.rs, Clone for SnRecorder
and EventStreamSender) whose resume may lag the reader's.  The reader
publishes its recorded sn on the sn watch at every increase (update_sn with
the notifier installed), and a tokio watch receiver reads the latest
published value, so the watch's current value is the reader's current
resume.sn and only the worker's possibly stale copy needs tracking. -/
structure StreamingTasks where
  sender : EventStreamSender
  readerAlive : Bool
  workerResume : GatewayResumeArguments
  workerAlive : Bool

/-- One scheduling event of the two-task run: the reader's select yields an
item from the message stream (the message arm of state.rs); the ping
worker's wait_sn_change observes the sn watch (ping.rs, the biased branch);
the ping worker's sink.feed of a ping message fails (ping.rs, the send
branch); or the ping worker stops silently (its sn notifier or its pong
deadline notifier found dead — ping.rs break paths without send_err). -/
inductive ConcInput where
  | reader (item : StreamItem)
  | workerSn
  | workerFeedFailed (e : MessageStreamSinkError)
  | workerStopped

/-- One interleaving step of the two tasks, returning the new joint state
and the channel items enqueued by the step.  Reader with an Event frame:
send_event then update_sn (state.rs, Event arm); Reader with a Reconnect
frame or a stream error: send_err with its current resume, then break;
other messages are ignored (ResumeACK is the TODO of the source); after the
reader breaks the remaining stream is never read.  Worker sn observation
(only meaningful while the reader, the watch's sender side, is alive):
update_sn on the worker's cloned recorder with the watched value, i.e. the
reader's current resume.sn; when the notifier is dead the worker breaks
silently.  Worker feed failure: send_err through the worker's cloned sender
— fresh buffer, the worker's own resume — then break; a dead worker
enqueues nothing. -/
def concStep (st : StreamingTasks) :
    ConcInput → StreamingTasks × List ChannelItem
  | .reader item =>
      if st.readerAlive then
        match item with
        | .ok (.event d) =>
            let r := readerEventStep st.sender d
            ({ st with sender := r.1 },
              r.2.map (fun x => .fromReader (.ok x.event)))
        | .ok (.reconnect d) =>
            ({ st with readerAlive := false },
              [.fromReader (.error
                (st.sender.send_err (.reconnect d.data.code d.data.err)))])
        | .ok _ => (st, [])
        | .err e =>
            ({ st with readerAlive := false },
              [.fromReader (.error (st.sender.send_err (.messageStream e)))])
      else (st, [])
  | .workerSn =>
      if st.workerAlive then
        if st.readerAlive then
          ({ st with workerResume :=
              update_sn st.workerResume st.sender.resume.sn }, [])
        else ({ st with workerAlive := false }, [])
      else (st, [])
  | .workerFeedFailed e =>
      if st.workerAlive then
        ({ st with workerAlive := false },
          [.fromWorker ((initSender st.workerResume).send_err
            (.messageStream e))])
      else (st, [])
  | .workerStopped => ({ st with workerAlive := false }, [])

/-- The two-task run over a scheduling trace: the channel items enqueued, in
order. -/
def runConc (st : StreamingTasks) : List ConcInput → List ChannelItem
  | [] => []
  | i :: rest =>
      let r := concStep st i
      r.2 ++ runConc r.1 rest

/-- The joint state at streaming entry (state.rs streaming_background before
the loop): the reader's sender with the run's resume state, the ping
worker's cloned recorder starting from the same resume, both tasks alive. -/
def initTasks (r0 : GatewayResumeArguments) : StreamingTasks :=
  { sender := initSender r0
    readerAlive := true
    workerResume := r0
    workerAlive := true }

/-- The sns of the Event frames the reader receives in a scheduling trace,
in order. -/
def concEventSns (tr : List ConcInput) : List Nat :=
  tr.filterMap fun
    | .reader (.ok (.event d)) => some d.sn
    | _ => none

/-- Whether a scheduling event is the reader receiving a terminal item. -/
def readerTerminal : ConcInput → Bool
  | .reader t => t.isTerminal
  | _ => false

/-- Per-producer finality between an earlier and a later channel item: after
a reader-enqueued error the reader enqueues nothing more, and after the
worker-enqueued error the worker enqueues nothing more. -/
def chanRel (a b : ChannelItem) : Prop :=
  (a.isReaderError = true → b.isFromReader = false) ∧
    (a.isFromWorker = true → b.isFromWorker = false)

/- ===== src/api/types.rs: gateway URL parsing and re-encoding =====

The url crate is external to the repository; a parsed url::Url is modelled
structurally by its components after the normalization that crate performs
(percent-decoding of query pairs, a slash-prefixed path, default ports
omitted).  from_str reads those components exactly as the source does, and
url() rebuilds them exactly as the source's format + append_pair sequence
does. -/

/-- A parsed url::Url: scheme, optional host, optional port, path, and the
percent-decoded query pairs in order. -/
structure Url where
  scheme : String
  host : Option String
  port : Option Nat
  path : String
  query : List (String × String)
deriving DecidableEq

/-- The url crate's default port table for the schemes the client admits. -/
def defaultPort : String → Option Nat
  | "ws" => some 80
  | "wss" => some 443
  | _ => none

/-- url::Url::set_port: storing the default port of a special scheme leaves
no explicit port (default ports are never reflected). -/
def setPort (scheme : String) (p : Option Nat) : Option Nat :=
  match p with
  | none => none
  | some p => if defaultPort scheme = some p then none else some p

/-- query_pairs().collect::(HashMap) followed by get: each insert overwrites,
so the lookup sees the last pair with the key. -/
def queryGet (q : List (String × String)) (k : String) : Option String :=
  q.reverse.lookup k

/- The std Display and FromStr implementations for u64 (format! and
str::parse) are external library code; they are modelled at the character
level by the two functions below, decimal digits most significant first. -/

/-- The decimal digits of n, most significant first. -/
def natDigits (n : Nat) : List Nat :=
  if h : n < 10 then [n]
  else
    have : n / 10 < n := Nat.div_lt_self (by omega) (by omega)
    natDigits (n / 10) ++ [n % 10]

/-- A decimal digit as a character. -/
def digitToChar (d : Nat) : Char := Char.ofNat (48 + d)

/-- Model of format! for u64: the decimal digit string. -/
def u64ToString (n : Nat) : String :=
  ⟨(natDigits n).map digitToChar⟩

/-- Model of str::parse::(u64): all characters decimal digits and at least
one, folded to the value. -/
def parseU64 (s : String) : Option Nat :=
  if s.data ≠ [] ∧ s.data.all Char.isDigit then
    some (s.data.foldl (fun n c => n * 10 + (c.toNat - 48)) 0)
  else none

/-- src/api/types.rs ParseGatewayURLError.  The InvalidURL variant belongs to
the external string-to-Url step and cannot arise on a structural Url; each
variant drops the diagnostic copy of the input the source carries. -/
inductive ParseGatewayURLError where
  | invalidURL
  | invalidSchema (schema : String)
  | noHost
  | noToken
  | noSN
  | invalidSN
  | noSessionID
deriving DecidableEq

/-- src/api/types.rs GatewayURLInfo. -/
structure GatewayURLInfo where
  schema : String
  host : String
  port : Option Nat
  path : String
  compress : Bool
  token : String
  resume : Option GatewayResumeArguments
deriving DecidableEq

/-- src/api/types.rs GatewayURLInfo::url: rebuild the URL from scheme, host
and path, set the port, then append compress, token and, when resuming,
resume, sn and session_id as query pairs. -/
def GatewayURLInfo.url (g : GatewayURLInfo) : Url :=
  { scheme := g.schema
    host := some g.host
    port := setPort g.schema g.port
    path := g.path
    query :=
      [("compress", if g.compress then "1" else "0"), ("token", g.token)] ++
        match g.resume with
        | some r => [("resume", "1"), ("sn", u64ToString r.sn),
            ("session_id", r.session_id)]
        | none => [] }

/-- src/api/types.rs FromStr for GatewayURLInfo: require a ws or wss scheme
and a host; read compress (default false), the required token, and when
resume is "1" the required sn (a u64) and session_id. -/
def GatewayURLInfo.from_str (u : Url) :
    Except ParseGatewayURLError GatewayURLInfo := do
  if ¬(u.scheme = "wss" ∨ u.scheme = "ws") then
    throw (.invalidSchema u.scheme)
  let host ← match u.host with
    | some h => pure h
    | none => throw .noHost
  let compress := ((queryGet u.query "compress").map (· == "1")).getD false
  let token ← match queryGet u.query "token" with
    | some t => pure t
    | none => throw .noToken
  let resume ← match queryGet u.query "resume" with
    | some v =>
        if v = "1" then do
          let snStr ← match queryGet u.query "sn" with
            | some s => pure s
            | none => throw ParseGatewayURLError.noSN
          let session_id ← match queryGet u.query "session_id" with
            | some s => pure s
            | none => throw ParseGatewayURLError.noSessionID
          let sn ← match parseU64 snStr with
            | some n => pure n
            | none => throw ParseGatewayURLError.invalidSN
          pure (some (⟨sn, session_id⟩ : GatewayResumeArguments))
        else pure none
    | none => pure none
  pure { schema := u.scheme, host, port := u.port, path := u.path,
         compress, token, resume }

/- ===== src/ws/client/inner/gateway.rs: Gateway state connect ===== -/

/-- src/ws/client/inner/gateway.rs ClientInner(Gateway)::connect.  The
external websocket::connect_async is an oracle: its first and (if consulted)
second outcomes are the two arguments.  Returns the result of the state
transition together with the number of connect attempts actually made: one
try, a second only when the first failed, and on two failures the error
wrapping the URL and the second failure. -/
def connectGateway {C : Type} (url : String) (try1 try2 : Except WsError C) :
    Except ConnectGatewayError C × Nat :=
  match try1 with
  | .ok c => (.ok c, 1)
  | .error _ =>
      match try2 with
      | .ok c => (.ok c, 2)
      | .error e => (.error { url, source := e }, 2)

/- ===== src/filter.rs: the subscriber event filters ===== -/

/-- src/filter.rs trait Filter: the capability of checking an event. -/
class EventFilter (F : Type) where
  filter_event : F → Event → Bool

/-- src/filter.rs impl Filter for closures. -/
instance : EventFilter (Event → Bool) where
  filter_event f e := f e

/-- src/filter.rs struct Not. -/
structure FilterNot (F : Type) where
  filter : F

instance {F : Type} [EventFilter F] : EventFilter (FilterNot F) where
  filter_event f e := !(EventFilter.filter_event f.filter e)

/-- src/filter.rs struct And: passes iff both pass. -/
structure FilterAnd (FA FB : Type) where
  a : FA
  b : FB

instance {FA FB : Type} [EventFilter FA] [EventFilter FB] :
    EventFilter (FilterAnd FA FB) where
  filter_event f e :=
    EventFilter.filter_event f.a e && EventFilter.filter_event f.b e

/-- src/filter.rs struct Or: passes iff either passes. -/
structure FilterOr (FA FB : Type) where
  a : FA
  b : FB

instance {FA FB : Type} [EventFilter FA] [EventFilter FB] :
    EventFilter (FilterOr FA FB) where
  filter_event f e :=
    EventFilter.filter_event f.a e || EventFilter.filter_event f.b e

/-- src/filter.rs FilterExt::not. -/
def FilterExt.not {F : Type} (self : F) : FilterNot F :=
  { filter := self }

/-- src/filter.rs FilterExt::and. -/
def FilterExt.and {FA FB : Type} (self : FA) (other : FB) : FilterAnd FA FB :=
  { a := self, b := other }

/-- src/filter.rs FilterExt::or, verbatim: it builds a FilterAnd, not a
FilterOr (fn or(self, other) -> And(Self, F) returning And). -/
def FilterExt.or {FA FB : Type} (self : FA) (other : FB) : FilterAnd FA FB :=
  { a := self, b := other }

/-- src/filter.rs struct All: passes every event. -/
structure FilterAll where
  mk' ::

instance : EventFilter FilterAll where
  filter_event _ _ := true

/-- src/filter.rs struct None: rejects every event. -/
structure FilterNone where
  mk' ::

instance : EventFilter FilterNone where
  filter_event _ _ := false

/- ===== src/ws/client/inner/streaming/state.rs: the reader select loop as a
   transition system (src/ws/client/inner/mod.rs constants) ===== -/

def STREAMING_STATE_PONG_TIMEOUT_MAX_COUNT : Nat := 2

/-- Where the streaming reader loop stands: still looping, moved to the
Timeout state, or stopped (broke out of the loop for any other reason). -/
inductive LoopMode where
  | running
  | movedToTimeout
  | stopped
deriving DecidableEq

/-- The loop-control state of streaming_background: the published pong
deadline (an abstract instant), the consecutive-timeout counter, the mode,
whether the reader still holds the sn notifier, and whether the ping worker
has been awaited (its join handle resolved, returning the sink). -/
structure StreamingLoop where
  pong_timeout_tick : Option Nat
  pong_timeout_count : Nat
  mode : LoopMode
  sn_notifier : Bool
  ping_worker_joined : Bool
deriving DecidableEq

/-- What can wake the select of streaming_background: the pong deadline
fires, the ping worker publishes a new deadline, the ping worker drops its
side of the deadline watch, a decoded frame arrives, or the message stream
yields a (fatal) error. -/
inductive LoopInput where
  | pongExpiry
  | watchUpdate (tick : Option Nat)
  | watchClosed
  | frame (m : Message)
  | frameErr (e : MessageStreamSinkError)

/-- src/ws/client/inner/streaming/state.rs streaming_background, one select
round.  A pongExpiry can only fire while a deadline is published (with none
the branch is future::pending()); it increments the counter and clears the
tick, and on reaching STREAMING_STATE_PONG_TIMEOUT_MAX_COUNT the reader
drops the sn notifier, awaits the ping worker for the sink, and moves to the
Timeout state.  A received frame clears the tick and resets the counter; a
Reconnect frame or a stream error then breaks the loop (the terminal error
they enqueue is modelled by concStep above); a closed deadline watch breaks
the loop.  Once the mode leaves running the state is final. -/
def streamingStep (st : StreamingLoop) (i : LoopInput) : StreamingLoop :=
  if st.mode ≠ .running then st
  else
    match i with
    | .pongExpiry =>
        match st.pong_timeout_tick with
        | none => st
        | some _ =>
            let st' := { st with
              pong_timeout_count := st.pong_timeout_count + 1,
              pong_timeout_tick := none }
            if STREAMING_STATE_PONG_TIMEOUT_MAX_COUNT ≤
                st'.pong_timeout_count then
              { st' with
                mode := .movedToTimeout
                sn_notifier := false
                ping_worker_joined := true }
            else st'
    | .watchUpdate tick => { st with pong_timeout_tick := tick }
    | .watchClosed => { st with mode := .stopped }
    | .frame m =>
        let st' := { st with
          pong_timeout_tick := none
          pong_timeout_count := 0 }
        match m with
        | .reconnect _ => { st' with mode := .stopped }
        | _ => st'
    | .frameErr _ => { st with mode := .stopped }

/-- The loop state on entry to streaming_background: no deadline published,
zero timeouts, the sn notifier installed, the ping worker spawned. -/
def initLoop : StreamingLoop :=
  { pong_timeout_tick := none, pong_timeout_count := 0, mode := .running,
    sn_notifier := true, ping_worker_joined := false }

/-- The loop run over a sequence of select outcomes. -/
def runTrace (st : StreamingLoop) (tr : List LoopInput) : StreamingLoop :=
  tr.foldl streamingStep st

/-- The inputs that are received items of the message stream (the claims
sense of a received frame reaching the reader). -/
def LoopInput.isFrame : LoopInput → Bool
  | .frame _ => true
  | .frameErr _ => true
  | _ => false

/- ===== Theorems ===== -/

/- Codec helper lemmas. -/

theorem asU64_num_natCast (n : Nat) : Json.asU64 (.num n) = some n := by
  simp [Json.asU64]

theorem asI64_num (n : Int) : Json.asI64 (.num n) = some n := rfl

/-- C3.  Codec round-trip and encode shape: for every Message of the known
variants, decode(encode m) with compressed = false succeeds and returns m;
encode is total and yields a JSON object whose integer field s is the
variant discriminant (Event 0, Hello 1, Ping 2, Pong 3, Resume 4,
Reconnect 5, ResumeACK 6), with the variant payload inlined at the top
level beside it. -/
theorem codec_round_trip (m : Message) :
    Message.decode (Message.encode m) = .ok m ∧
      ∃ o, Message.encode m = .obj o ∧
        objGet o "s" = some (.num m.type_number) ∧
        objRemove o "s" = objRemove m.toValue MESSAGE_INTERNAL_TYPE_TAG := by
  cases m with
  | event d =>
      cases d
      refine ⟨?_, _, rfl, ?_, ?_⟩ <;>
        simp [Message.encode, Message.decode, Message.toValue,
          MESSAGE_INTERNAL_TYPE_TAG, EventData.toFields, objInsert, objRemove,
          objGet, Message.fromValueTagged, Json.asI64, Json.asStr,
          typeNumberToTypeName, parseEventData, Json.asU64, Message.type_number,
          bind, Except.bind, pure, Except.pure]
  | hello d =>
      obtain ⟨⟨code, sid⟩⟩ := d
      cases sid <;>
        refine ⟨?_, _, rfl, ?_, ?_⟩ <;>
          simp [Message.encode, Message.decode, Message.toValue,
            MESSAGE_INTERNAL_TYPE_TAG, OnlyData.toFields, Hello.toFields,
            objInsert, objRemove, objGet, Message.fromValueTagged, Json.asI64,
            Json.asStr, typeNumberToTypeName, parseOnlyData, parseHello,
            Message.type_number, bind, Except.bind, pure, Except.pure,
            Option.bind]
  | ping d =>
      cases d
      refine ⟨?_, _, rfl, ?_, ?_⟩ <;>
        simp [Message.encode, Message.decode, Message.toValue,
          MESSAGE_INTERNAL_TYPE_TAG, SN.toFields, objInsert, objRemove, objGet,
          Message.fromValueTagged, Json.asI64, Json.asStr, typeNumberToTypeName,
          parseSN, Json.asU64, Message.type_number, bind, Except.bind, pure,
          Except.pure]
  | pong =>
      exact ⟨rfl, _, rfl, rfl, rfl⟩
  | resume d =>
      cases d
      refine ⟨?_, _, rfl, ?_, ?_⟩ <;>
        simp [Message.encode, Message.decode, Message.toValue,
          MESSAGE_INTERNAL_TYPE_TAG, SN.toFields, objInsert, objRemove, objGet,
          Message.fromValueTagged, Json.asI64, Json.asStr, typeNumberToTypeName,
          parseSN, Json.asU64, Message.type_number, bind, Except.bind, pure,
          Except.pure]
  | reconnect d =>
      obtain ⟨⟨code, err⟩⟩ := d
      refine ⟨?_, _, rfl, ?_, ?_⟩ <;>
        simp [Message.encode, Message.decode, Message.toValue,
          MESSAGE_INTERNAL_TYPE_TAG, OnlyData.toFields, Reconnect.toFields,
          objInsert, objRemove, objGet, Message.fromValueTagged, Json.asI64,
          Json.asStr, typeNumberToTypeName, parseOnlyData, parseReconnect,
          Message.type_number, bind, Except.bind, pure, Except.pure,
          Option.bind]
  | resumeACK d =>
      obtain ⟨⟨sid⟩⟩ := d
      refine ⟨?_, _, rfl, ?_, ?_⟩ <;>
        simp [Message.encode, Message.decode, Message.toValue,
          MESSAGE_INTERNAL_TYPE_TAG, OnlyData.toFields, ResumeACK.toFields,
          objInsert, objRemove, objGet, Message.fromValueTagged, Json.asI64,
          Json.asStr, typeNumberToTypeName, parseOnlyData, parseResumeACK,
          Message.type_number, bind, Except.bind, pure, Except.pure,
          Option.bind]

/-- C4.  Transport error fatality and the non-fatal filter: is_fatal is false
exactly on NotBinaryFrame and on ParseMessageFailed wrapping
UnknownMessageType (so Websocket errors and every other codec error are
fatal), and the filtered message stream used for the Hello wait keeps an item
iff the item is not a non-fatal error, i.e. iff it is a message or a fatal
error. -/
theorem is_fatal_and_filter :
    (∀ e : MessageStreamSinkError,
      e.is_fatal = false ↔
        e = .notBinaryFrame ∨
          ∃ t, e = .parseMessageFailed (.unknownMessageType t)) ∧
      ∀ (items : List (Except MessageStreamSinkError Message))
        (r : Except MessageStreamSinkError Message),
        r ∈ filterMessageStream items ↔
          r ∈ items ∧ ∀ e, r = .error e → e.is_fatal = true := by
  constructor
  · intro e
    match e with
    | .websocket s => simp [MessageStreamSinkError.is_fatal]
    | .notBinaryFrame => simp [MessageStreamSinkError.is_fatal]
    | .parseMessageFailed src =>
        match src with
        | .decompressFailed | .parseJSONFailed | .messageNotObject
        | .noMessageType | .messageTypeNotNumber
        | .parseJSONToTypedMessageFailed _ =>
            simp [MessageStreamSinkError.is_fatal]
        | .unknownMessageType t =>
            simp [MessageStreamSinkError.is_fatal]
  · intro items r
    rw [filterMessageStream, List.mem_filter]
    refine and_congr_right fun _ => ?_
    match r with
    | .ok m => simp [keepMessageItem]
    | .error e => simp [keepMessageItem]

/-- C6 evidence.  The or combinator of src/filter.rs, evaluated at the
failing input: FilterExt::or builds an And, so all().or(none()) rejects an
event that all() accepts (a genuine disjunction would accept it), while the
unused Or structure correctly computes the disjunction. -/
theorem or_combinator_is_conjunction :
    EventFilter.filter_event (FilterExt.or FilterAll.mk' FilterNone.mk')
        Json.null = false ∧
      EventFilter.filter_event FilterAll.mk' Json.null = true ∧
      EventFilter.filter_event (FilterOr.mk FilterAll.mk' FilterNone.mk')
        Json.null = true := by
  exact ⟨rfl, rfl, rfl⟩

/- Helper lemmas for the ordered-delivery model. -/

theorem insertBySn_perm (item : EventData) (l : List EventData) :
    List.Perm (insertBySn item l) (item :: l) := by
  induction l with
  | nil => simp [insertBySn]
  | cons x xs ih =>
      rw [insertBySn]
      split
      · exact .refl _
      · exact (List.Perm.cons x ih).trans (List.Perm.swap item x xs)

theorem mem_insertBySn {y item : EventData} {l : List EventData} :
    y ∈ insertBySn item l ↔ y = item ∨ y ∈ l := by
  rw [(insertBySn_perm item l).mem_iff, List.mem_cons]

theorem insertBySn_sorted {item : EventData} {l : List EventData}
    (hs : List.Sorted (· < ·) (l.map EventData.sn))
    (hmem : item.sn ∉ l.map EventData.sn) :
    List.Sorted (· < ·) ((insertBySn item l).map EventData.sn) := by
  induction l with
  | nil => simp [insertBySn]
  | cons x xs ih =>
      rw [List.map_cons, List.sorted_cons] at hs
      rw [List.map_cons, List.mem_cons] at hmem
      push_neg at hmem
      rw [insertBySn]
      split
      · next hle =>
          rw [List.map_cons, List.map_cons, List.sorted_cons]
          refine ⟨?_, by rw [List.sorted_cons]; exact hs⟩
          intro b hb
          rw [List.mem_cons] at hb
          rcases hb with rfl | hb
          · exact lt_of_le_of_ne hle hmem.1
          · exact lt_of_le_of_ne (le_trans hle (le_of_lt (hs.1 b hb)))
              (fun he => hmem.2 (he ▸ hb))
      · next hgt =>
          push_neg at hgt
          rw [List.map_cons, List.sorted_cons]
          refine ⟨?_, ih hs.2 hmem.2⟩
          intro b hb
          rw [List.mem_map] at hb
          obtain ⟨y, hy, rfl⟩ := hb
          rcases mem_insertBySn.1 hy with rfl | hy
          · exact hgt
          · exact hs.1 _ (List.mem_map_of_mem _ hy)

theorem drainFrom_append (c : Nat) (exist : List Nat) (buf : List EventData) :
    (drainFrom c exist buf).2.2 ++ (drainFrom c exist buf).2.1 = buf := by
  induction buf generalizing c exist with
  | nil => simp [drainFrom]
  | cons x xs ih =>
      rw [drainFrom]
      split
      · simpa using ih (c + 1) (exist.erase x.sn)
      · simp

theorem drainFrom_no_pop {c : Nat} {exist : List Nat} {x : EventData}
    {xs : List EventData} (h : x.sn ≠ c + 1) :
    drainFrom c exist (x :: xs) = (exist, x :: xs, []) := by
  rw [drainFrom, if_neg h]

/-- The drained prefix and final exist set of drainFrom, under the buffer
invariants: the popped events are exactly the consecutive run starting
one past the cursor, the remaining heap is the rest, and the exist set
loses exactly the popped sns. -/
theorem drainFrom_spec (buf : List EventData) :
    ∀ (c : Nat) (exist : List Nat),
      List.Sorted (· < ·) (buf.map EventData.sn) →
      (∀ x ∈ buf, c < x.sn) →
      (drainFrom c exist buf).2.2.map EventData.sn =
          List.range' (c + 1) (drainFrom c exist buf).2.2.length ∧
        (drainFrom c exist buf).2.1 =
          buf.drop (drainFrom c exist buf).2.2.length ∧
        (exist.Nodup →
          (drainFrom c exist buf).1.Nodup ∧
            ∀ n, n ∈ (drainFrom c exist buf).1 ↔
              n ∈ exist ∧ n ∉ (drainFrom c exist buf).2.2.map EventData.sn) := by
  induction buf with
  | nil => intro c exist _ _; simp [drainFrom]
  | cons x xs ih =>
      intro c exist hs hgt
      rw [List.map_cons, List.sorted_cons] at hs
      by_cases hx : x.sn = c + 1
      · have hgt' : ∀ y ∈ xs, c + 1 < y.sn := by
          intro y hy
          have := hs.1 y.sn (List.mem_map_of_mem _ hy)
          omega
        obtain ⟨h1, h2, h3⟩ := ih (c + 1) (exist.erase x.sn) hs.2 hgt'
        rcases hdr : drainFrom (c + 1) (exist.erase x.sn) xs with
          ⟨ex', buf', out'⟩
        rw [hdr] at h1 h2 h3
        dsimp only at h1 h2 h3
        rw [drainFrom, if_pos hx, hdr]
        dsimp only
        refine ⟨?_, ?_, ?_⟩
        · simp only [List.map_cons, List.length_cons, hx, h1,
            List.range'_succ]
        · simpa using h2
        · intro hnd
          obtain ⟨hnd', hiff⟩ := h3 (hnd.erase x.sn)
          refine ⟨hnd', fun n => ?_⟩
          rw [hiff n, hnd.mem_erase_iff]
          simp only [List.map_cons, List.mem_cons]
          constructor
          · rintro ⟨⟨hne, hmem⟩, hnot⟩
            exact ⟨hmem, fun h => h.elim hne hnot⟩
          · rintro ⟨hmem, hnot⟩
            exact ⟨⟨fun h => hnot (.inl h), hmem⟩, fun h => hnot (.inr h)⟩
      · rw [drainFrom_no_pop hx]
        simp

theorem update_sn_session_id (r : GatewayResumeArguments) (v : Nat) :
    (update_sn r v).session_id = r.session_id := by
  rw [update_sn]; split <;> rfl

theorem update_sn_sn (r : GatewayResumeArguments) (v : Nat) :
    (update_sn r v).sn = max r.sn v := by
  rw [update_sn]
  split <;> simp <;> omega

/-- Folding update_sn over a consecutive run starting one past the current sn
advances the sn by exactly the length of the run. -/
theorem foldl_update_sn_consecutive (out : List EventData) :
    ∀ r : GatewayResumeArguments,
      out.map EventData.sn = List.range' (r.sn + 1) out.length →
      (out.foldl (fun acc d => update_sn acc d.sn) r).sn = r.sn + out.length ∧
        (out.foldl (fun acc d => update_sn acc d.sn) r).session_id =
          r.session_id := by
  induction out with
  | nil => intro r _; simp
  | cons x xs ih =>
      intro r h
      rw [List.map_cons, List.length_cons, List.range'_succ,
        List.cons.injEq] at h
      obtain ⟨ha, hb⟩ := h
      have hx : update_sn r x.sn = { r with sn := r.sn + 1 } := by
        rw [update_sn, if_pos (show r.sn < x.sn by omega), ha]
      rw [List.foldl_cons, hx]
      obtain ⟨h1, h2⟩ := ih { r with sn := r.sn + 1 } (by simpa using hb)
      refine ⟨?_, h2⟩
      rw [h1]
      show r.sn + 1 + xs.length = r.sn + (xs.length + 1)
      omega

/-- Folding update_sn over values bounded by M keeps the sn between its old
value and M. -/
theorem foldl_update_sn_bounds (out : List EventData) :
    ∀ (r : GatewayResumeArguments) (M : Nat),
      (∀ x ∈ out, x.sn ≤ M) → r.sn ≤ M →
      r.sn ≤ (out.foldl (fun acc d => update_sn acc d.sn) r).sn ∧
        (out.foldl (fun acc d => update_sn acc d.sn) r).sn ≤ M := by
  induction out with
  | nil => intro r M _ hr; exact ⟨le_refl _, hr⟩
  | cons x xs ih =>
      intro r M hb hr
      rw [List.foldl_cons]
      have hx : (update_sn r x.sn).sn ≤ M := by
        rw [update_sn_sn]
        exact max_le hr (hb x (by simp))
      obtain ⟨h1, h2⟩ := ih (update_sn r x.sn) M
        (fun y hy => hb y (by simp [hy])) hx
      refine ⟨le_trans ?_ h1, h2⟩
      rw [update_sn_sn]; omega

/-- The reader-loop invariant, parameterized by L, the sn of the last event
delivered to the consumer in this run (or the initial resume sn when none
was): the heap is sorted with the exist set tracking exactly the buffered
sns, every buffered sn is beyond L and at most the recorded resume sn, and
whenever the recorded sn has run ahead of L (which the reader's extra
update_sn call can cause), that sn is itself still buffered — which is what
keeps any further delivery from skipping past L. -/
structure SenderInv (L : Nat) (s : EventStreamSender) : Prop where
  sorted : List.Sorted (· < ·) (s.buffer.buffer.map EventData.sn)
  existEq : ∀ n, n ∈ s.buffer.exist ↔ n ∈ s.buffer.buffer.map EventData.sn
  existNodup : s.buffer.exist.Nodup
  lower : ∀ x ∈ s.buffer.buffer, L < x.sn
  rge : L ≤ s.resume.sn
  stuck : L < s.resume.sn → s.resume.sn ∈ s.buffer.buffer.map EventData.sn
  hle : ∀ x ∈ s.buffer.buffer, x.sn ≤ s.resume.sn

theorem senderInv_init (resume : GatewayResumeArguments) :
    SenderInv resume.sn (initSender resume) := by
  refine ⟨?_, ?_, ?_, ?_, ?_, ?_, ?_⟩ <;> simp [initSender]

/-- What EventBuffer::put leaves behind, under the invariant: the heap is
still sorted and synchronized with the exist set, old entries survive, every
entry is beyond L and at most max(resume sn, put sn), and when the put sn is
beyond the cursor it is buffered afterwards (freshly inserted, or it already
was). -/
theorem put_facts {L : Nat} {s : EventStreamSender} (h : SenderInv L s)
    (d : EventData) :
    List.Sorted (· < ·)
        ((s.buffer.put s.resume.sn d).buffer.map EventData.sn) ∧
      (∀ n, n ∈ (s.buffer.put s.resume.sn d).exist ↔
        n ∈ (s.buffer.put s.resume.sn d).buffer.map EventData.sn) ∧
      (s.buffer.put s.resume.sn d).exist.Nodup ∧
      (∀ x ∈ (s.buffer.put s.resume.sn d).buffer, L < x.sn) ∧
      (∀ x ∈ (s.buffer.put s.resume.sn d).buffer,
        x.sn ≤ max s.resume.sn d.sn) ∧
      (∀ y ∈ s.buffer.buffer, y ∈ (s.buffer.put s.resume.sn d).buffer) ∧
      (s.resume.sn < d.sn →
        d.sn ∈ (s.buffer.put s.resume.sn d).buffer.map EventData.sn) := by
  rw [EventBuffer.put]
  split
  · next hcond =>
      simp only [Bool.or_eq_true, decide_eq_true_eq, List.contains,
        List.elem_eq_mem] at hcond
      refine ⟨h.sorted, h.existEq, h.existNodup, h.lower, ?_, fun y hy => hy,
        ?_⟩
      · exact fun x hx => le_trans (h.hle x hx) (le_max_left _ _)
      · intro hlt
        rcases hcond with hle | hmem
        · omega
        · exact (h.existEq d.sn).1 hmem
  · next hcond =>
      simp only [Bool.or_eq_true, decide_eq_true_eq, List.contains,
        List.elem_eq_mem, not_or] at hcond
      obtain ⟨hgt, hnotexist⟩ := hcond
      have hgt' : s.resume.sn < d.sn := by omega
      have hnotbuf : d.sn ∉ s.buffer.buffer.map EventData.sn :=
        fun hmem => hnotexist ((h.existEq d.sn).2 hmem)
      have hmapperm :
          List.Perm ((insertBySn d s.buffer.buffer).map EventData.sn)
            (d.sn :: s.buffer.buffer.map EventData.sn) :=
        (insertBySn_perm d s.buffer.buffer).map EventData.sn
      refine ⟨insertBySn_sorted h.sorted hnotbuf, ?_, ?_, ?_, ?_, ?_, ?_⟩
      · intro n
        rw [hmapperm.mem_iff, List.mem_cons, List.mem_cons]
        exact or_congr Iff.rfl (h.existEq n)
      · rw [List.nodup_cons]
        exact ⟨hnotexist, h.existNodup⟩
      · intro x hx
        rcases mem_insertBySn.1 hx with rfl | hx
        · have := h.rge; omega
        · exact h.lower x hx
      · intro x hx
        rcases mem_insertBySn.1 hx with rfl | hx
        · exact le_max_right _ _
        · exact le_trans (h.hle x hx) (le_max_left _ _)
      · exact fun y hy => mem_insertBySn.2 (.inr hy)
      · intro _
        exact hmapperm.mem_iff.2 (List.mem_cons_self _ _)

/-- One reader step on an Event frame, under the invariant: the events put on
the consumer channel are exactly the consecutive run continuing at L + 1, the
invariant moves to L plus the number delivered, and the recorded resume sn
becomes the maximum of its old value and the received sn (session id
untouched). -/
theorem readerEventStep_spec {L : Nat} {s : EventStreamSender} (d : EventData)
    (h : SenderInv L s) :
    (readerEventStep s d).2.map EventData.sn =
        List.range' (L + 1) (readerEventStep s d).2.length ∧
      SenderInv (L + (readerEventStep s d).2.length) (readerEventStep s d).1 ∧
      (readerEventStep s d).1.resume.sn = max s.resume.sn d.sn ∧
      (readerEventStep s d).1.resume.session_id = s.resume.session_id := by
  obtain ⟨hsorted, hexistEq, hnodup, hlower, hle1max, hpreserve, hmemd⟩ :=
    put_facts h d
  rcases hdr : drainFrom s.resume.sn (s.buffer.put s.resume.sn d).exist
      (s.buffer.put s.resume.sn d).buffer with ⟨ex2, buf2, out⟩
  have happend : out ++ buf2 = (s.buffer.put s.resume.sn d).buffer := by
    have := drainFrom_append s.resume.sn (s.buffer.put s.resume.sn d).exist
      (s.buffer.put s.resume.sn d).buffer
    rw [hdr] at this
    exact this
  have hstep : readerEventStep s d =
      ({ buffer := ⟨ex2, buf2⟩,
         resume := update_sn
           (out.foldl (fun acc x => update_sn acc x.sn) s.resume) d.sn },
       out) := by
    simp only [readerEventStep, EventStreamSender.send_event,
      EventStreamSender.put, EventStreamSender.flush, EventStreamSender.sn,
      hdr]
  rw [hstep]
  dsimp only
  by_cases hc : L < s.resume.sn
  · -- the recorded sn has run ahead of L: the heap top is at most the
    -- recorded sn, so nothing pops and nothing is delivered
    have hcmem : s.resume.sn ∈
        (s.buffer.put s.resume.sn d).buffer.map EventData.sn := by
      obtain ⟨y, hy, hysn⟩ := List.mem_map.1 (h.stuck hc)
      exact List.mem_map.2 ⟨y, hpreserve y hy, hysn⟩
    have hdrval : drainFrom s.resume.sn (s.buffer.put s.resume.sn d).exist
        (s.buffer.put s.resume.sn d).buffer =
        ((s.buffer.put s.resume.sn d).exist,
          (s.buffer.put s.resume.sn d).buffer, []) := by
      rcases hb : (s.buffer.put s.resume.sn d).buffer with _ | ⟨z, rest⟩
      · rw [drainFrom]
      · have hs' := hsorted
        rw [hb, List.map_cons, List.sorted_cons] at hs'
        have hc' := hcmem
        rw [hb, List.map_cons, List.mem_cons] at hc'
        have hz : z.sn ≤ s.resume.sn := by
          rcases hc' with hez | hmem
          · omega
          · exact le_of_lt (hs'.1 _ hmem)
        exact drainFrom_no_pop (by omega)
    rw [hdrval, Prod.mk.injEq, Prod.mk.injEq] at hdr
    obtain ⟨hex2, hbuf2, hout⟩ := hdr
    subst hex2 hbuf2 hout
    refine ⟨by simp, ?_, ?_, ?_⟩
    · refine ⟨hsorted, hexistEq, hnodup, ?_, ?_, ?_, ?_⟩
      · simpa using hlower
      · simp only [List.foldl_nil, update_sn_sn, List.length_nil,
          Nat.add_zero]
        have := h.rge
        omega
      · intro hlt
        simp only [List.foldl_nil, update_sn_sn]
        rcases le_or_lt d.sn s.resume.sn with hcase | hcase
        · rw [max_eq_left hcase]; exact hcmem
        · rw [max_eq_right (le_of_lt hcase)]; exact hmemd hcase
      · intro x hx
        simp only [List.foldl_nil, update_sn_sn]
        exact hle1max x hx
    · simp only [List.foldl_nil, update_sn_sn]
    · simp only [List.foldl_nil, update_sn_session_id]
  · -- the recorded sn equals L: the drain delivers the maximal consecutive
    -- run starting at L + 1
    have hcL : s.resume.sn = L := by have := h.rge; omega
    obtain ⟨hout, hbuf2, hexist2⟩ :=
      drainFrom_spec (s.buffer.put s.resume.sn d).buffer s.resume.sn
        (s.buffer.put s.resume.sn d).exist hsorted
        (fun x hx => by have := hlower x hx; omega)
    rw [hdr] at hout hbuf2 hexist2
    dsimp only at hout hbuf2 hexist2
    obtain ⟨hnd2, hiff2⟩ := hexist2 hnodup
    have houtsub : ∀ y ∈ out, y ∈ (s.buffer.put s.resume.sn d).buffer :=
      fun y hy => happend ▸ List.mem_append_left _ hy
    obtain ⟨hfold, hfoldsid⟩ := foldl_update_sn_consecutive out s.resume
      (by rw [hout])
    have hck : s.resume.sn + out.length ≤ max s.resume.sn d.sn := by
      rcases Nat.eq_zero_or_pos out.length with hk | hk
      · omega
      · have hlast : s.resume.sn + out.length ∈ out.map EventData.sn := by
          rw [hout, List.mem_range'_1]
          omega
        obtain ⟨y, hy, hysn⟩ := List.mem_map.1 hlast
        have := hle1max y (houtsub y hy)
        omega
    have hr3 : (update_sn (out.foldl (fun acc x => update_sn acc x.sn)
        s.resume) d.sn).sn = max s.resume.sn d.sn := by
      rw [update_sn_sn, hfold]
      omega
    have hmapappend : out.map EventData.sn ++ buf2.map EventData.sn =
        (s.buffer.put s.resume.sn d).buffer.map EventData.sn := by
      rw [← List.map_append, happend]
    have hnodupmap : ((s.buffer.put s.resume.sn d).buffer.map
        EventData.sn).Nodup := hsorted.nodup
    have hdisj : ∀ n ∈ out.map EventData.sn, n ∉ buf2.map EventData.sn := by
      have := List.nodup_append.1 (hmapappend ▸ hnodupmap)
      exact fun n hn => this.2.2 hn
    refine ⟨by rw [hout, hcL], ?_, ?_, ?_⟩
    · refine ⟨?_, ?_, hnd2, ?_, ?_, ?_, ?_⟩
      · rw [hbuf2, List.map_drop]
        exact List.Pairwise.sublist (List.drop_sublist _ _) hsorted
      · intro n
        rw [hiff2 n]
        constructor
        · rintro ⟨hmem, hnot⟩
          have := (hexistEq n).1 hmem
          rw [← hmapappend, List.mem_append] at this
          exact this.elim (fun hcon => absurd hcon hnot) id
        · intro hmem
          refine ⟨(hexistEq n).2 ?_, fun hcon => hdisj n hcon hmem⟩
          rw [← hmapappend, List.mem_append]
          exact .inr hmem
      · intro x hx
        have hxb1 : x ∈ (s.buffer.put s.resume.sn d).buffer :=
          happend ▸ List.mem_append_right _ hx
        have hxgt : L < x.sn := hlower x hxb1
        have hxnot : x.sn ∉ out.map EventData.sn :=
          fun hcon => hdisj x.sn hcon (List.mem_map_of_mem _ hx)
        rw [hout, List.mem_range'_1] at hxnot
        omega
      · rw [hr3]
        omega
      · intro hlt
        rw [hr3] at hlt ⊢
        have hdgt : s.resume.sn < d.sn := by omega
        have hmax : max s.resume.sn d.sn = d.sn := by omega
        rw [hmax] at hlt ⊢
        have hdb1 := hmemd hdgt
        rw [← hmapappend, List.mem_append] at hdb1
        rcases hdb1 with hcon | hmem
        · rw [hout, List.mem_range'_1] at hcon
          omega
        · exact hmem
      · intro x hx
        rw [hr3]
        exact hle1max x (happend ▸ List.mem_append_right _ hx)
    · exact hr3
    · rw [update_sn_session_id, hfoldsid]

/-- The reader run over any sequence of Event frames: the delivered sns are
exactly the consecutive range continuing at L + 1, the invariant carries to
the end, and the final resume sn is the maximum of the initial one and every
received sn. -/
theorem runEvents_spec (frames : List EventData) :
    ∀ (L : Nat) (s : EventStreamSender), SenderInv L s →
      (runEvents s frames).2.map EventData.sn =
          List.range' (L + 1) (runEvents s frames).2.length ∧
        SenderInv (L + (runEvents s frames).2.length)
          (runEvents s frames).1 ∧
        (runEvents s frames).1.resume.sn =
          (frames.map EventData.sn).foldl max s.resume.sn ∧
        (runEvents s frames).1.resume.session_id = s.resume.session_id := by
  induction frames with
  | nil =>
      intro L s h
      exact ⟨by simp [runEvents], by simpa [runEvents] using h,
        by simp [runEvents], by simp [runEvents]⟩
  | cons d ds ih =>
      intro L s h
      obtain ⟨h1, h2, h3, h4⟩ := readerEventStep_spec d h
      rcases hstep : readerEventStep s d with ⟨s1, out1⟩
      rw [hstep] at h1 h2 h3 h4
      dsimp only at h1 h2 h3 h4
      obtain ⟨g1, g2, g3, g4⟩ := ih (L + out1.length) s1 h2
      rcases hrest : runEvents s1 ds with ⟨s2, out2⟩
      rw [hrest] at g1 g2 g3 g4
      dsimp only at g1 g2 g3 g4
      have hrun : runEvents s (d :: ds) = (s2, out1 ++ out2) := by
        simp only [runEvents, hstep, hrest]
      rw [hrun]
      dsimp only
      refine ⟨?_, ?_, ?_, ?_⟩
      · rw [List.map_append, List.length_append, h1, g1,
          show L + out1.length + 1 = L + 1 + out1.length from by omega,
          List.range'_append_1]
        congr 1
        omega
      · rw [List.length_append,
          show L + (out1.length + out2.length) =
            L + out1.length + out2.length from by omega]
        exact g2
      · simp only [List.map_cons, List.foldl_cons]
        rw [g3, h3]
      · rw [g4, h4]

/-- C1.  Ordered, de-duplicated, gap-free delivery: over any sequence of
Event frames handed to the reader (any order, duplicates included), the sns
delivered to the consumer channel are exactly the consecutive range starting
one past the initial resume sn — strictly increasing in steps of one, no sn
twice, no gaps; moreover put drops any event whose sn is at most the cursor
or already buffered, and the drain pops the heap only while the top sn is
exactly the cursor plus one. -/
theorem ordered_delivery (resume : GatewayResumeArguments)
    (frames : List EventData) :
    (runEvents (initSender resume) frames).2.map EventData.sn =
        List.range' (resume.sn + 1)
          (runEvents (initSender resume) frames).2.length ∧
      (∀ (b : EventBuffer) (sn : Nat) (item : EventData),
        item.sn ≤ sn ∨ item.sn ∈ b.exist → b.put sn item = b) ∧
      (∀ (sn : Nat) (exist : List Nat) (x : EventData)
        (xs : List EventData), x.sn ≠ sn + 1 →
          drainFrom sn exist (x :: xs) = (exist, x :: xs, [])) := by
  refine ⟨(runEvents_spec frames resume.sn (initSender resume)
    (senderInv_init resume)).1, ?_, fun sn exist x xs hx =>
      drainFrom_no_pop hx⟩
  intro b sn item hdrop
  rw [EventBuffer.put, if_pos]
  simp only [Bool.or_eq_true, decide_eq_true_eq, List.contains,
    List.elem_eq_mem]
  exact hdrop

/-- C10.  A session started without resume begins at sn 0 (the Default of
GatewayResumeArguments via resume.take().unwrap_or_default() in wait_hello),
so an Event frame with sn 0 is silently dropped by put, no delivered event
ever has sn 0, and the first event such a session can deliver is sn 1. -/
theorem fresh_session_drops_sn_zero (frames : List EventData) :
    (initialResume none).sn = 0 ∧
      (∀ (b : EventBuffer) (sn : Nat) (item : EventData), item.sn = 0 →
        b.put sn item = b) ∧
      (∀ e ∈ (runEvents (initSender (initialResume none)) frames).2,
        e.sn ≠ 0) ∧
      ∀ e, (runEvents (initSender (initialResume none)) frames).2.head? =
          some e → e.sn = 1 := by
  have hrange := (runEvents_spec frames (initialResume none).sn
    (initSender (initialResume none)) (senderInv_init _)).1
  have hsn0 : (initialResume none).sn = 0 := rfl
  rw [hsn0] at hrange
  refine ⟨rfl, ?_, ?_, ?_⟩
  · intro b sn item hz
    rw [EventBuffer.put, if_pos]
    simp only [Bool.or_eq_true, decide_eq_true_eq]
    exact .inl (by omega)
  · intro e he
    have : e.sn ∈ (runEvents (initSender (initialResume none))
        frames).2.map EventData.sn := List.mem_map_of_mem _ he
    rw [hrange, List.mem_range'_1] at this
    omega
  · intro e he
    rcases hdel : (runEvents (initSender (initialResume none)) frames).2 with
      _ | ⟨e0, rest⟩
    · rw [hdel] at he; simp at he
    · rw [hdel] at he hrange
      simp only [List.head?_cons, Option.some.injEq] at he
      subst he
      rw [List.map_cons, List.length_cons, List.range'_succ,
        List.cons.injEq] at hrange
      exact hrange.1

theorem foldl_update_sn_session (out : List EventData) :
    ∀ r : GatewayResumeArguments,
      (out.foldl (fun acc d => update_sn acc d.sn) r).session_id =
        r.session_id := by
  induction out with
  | nil => intro r; rfl
  | cons x xs ih =>
      intro r
      rw [List.foldl_cons, ih, update_sn_session_id]

/-- Membership in the heap after put: an entry is an old one or the put
event. -/
theorem mem_put {s : EventStreamSender} {d x : EventData}
    (hx : x ∈ (s.buffer.put s.resume.sn d).buffer) :
    x ∈ s.buffer.buffer ∨ x = d := by
  rw [EventBuffer.put] at hx
  split at hx
  · exact .inl hx
  · rcases mem_insertBySn.1 hx with rfl | hx
    · exact .inr rfl
    · exact .inl hx

/-- One reader step, assuming only that every buffered sn is at most the
recorded one: that stays true, the recorded sn becomes the maximum of its
old value and the received sn, and the session id is untouched. -/
theorem readerEventStep_hle {s : EventStreamSender} (d : EventData)
    (h : ∀ x ∈ s.buffer.buffer, x.sn ≤ s.resume.sn) :
    (∀ x ∈ (readerEventStep s d).1.buffer.buffer,
        x.sn ≤ (readerEventStep s d).1.resume.sn) ∧
      (readerEventStep s d).1.resume.sn = max s.resume.sn d.sn ∧
      (readerEventStep s d).1.resume.session_id = s.resume.session_id := by
  rcases hdr : drainFrom s.resume.sn (s.buffer.put s.resume.sn d).exist
      (s.buffer.put s.resume.sn d).buffer with ⟨ex2, buf2, out⟩
  have happend : out ++ buf2 = (s.buffer.put s.resume.sn d).buffer := by
    have := drainFrom_append s.resume.sn (s.buffer.put s.resume.sn d).exist
      (s.buffer.put s.resume.sn d).buffer
    rw [hdr] at this
    exact this
  have hstep : readerEventStep s d =
      ({ buffer := ⟨ex2, buf2⟩,
         resume := update_sn
           (out.foldl (fun acc x => update_sn acc x.sn) s.resume) d.sn },
       out) := by
    simp only [readerEventStep, EventStreamSender.send_event,
      EventStreamSender.put, EventStreamSender.flush, EventStreamSender.sn,
      hdr]
  rw [hstep]
  dsimp only
  have hb1 : ∀ x ∈ (s.buffer.put s.resume.sn d).buffer,
      x.sn ≤ max s.resume.sn d.sn := by
    intro x hx
    rcases mem_put hx with hx | rfl
    · exact le_trans (h x hx) (le_max_left _ _)
    · exact le_max_right _ _
  obtain ⟨hlo, hhi⟩ := foldl_update_sn_bounds out s.resume
    (max s.resume.sn d.sn)
    (fun x hx => hb1 x (happend ▸ List.mem_append_left _ hx))
    (le_max_left _ _)
  have hr3 : (update_sn (out.foldl (fun acc x => update_sn acc x.sn)
      s.resume) d.sn).sn = max s.resume.sn d.sn := by
    rw [update_sn_sn]
    omega
  refine ⟨?_, hr3, by rw [update_sn_session_id, foldl_update_sn_session]⟩
  intro x hx
  rw [hr3]
  exact hb1 x (happend ▸ List.mem_append_right _ hx)

/-- The seed never exceeds a foldl max. -/
theorem le_foldl_max (l : List Nat) : ∀ a : Nat, a ≤ l.foldl max a := by
  induction l with
  | nil => intro a; exact le_refl a
  | cons x xs ih =>
      intro a
      rw [List.foldl_cons]
      exact le_trans (le_max_left a x) (ih (max a x))

/-- foldl max is monotone in its seed. -/
theorem foldl_max_mono (l : List Nat) :
    ∀ a b : Nat, a ≤ b → l.foldl max a ≤ l.foldl max b := by
  induction l with
  | nil => intro a b h; exact h
  | cons x xs ih =>
      intro a b h
      rw [List.foldl_cons, List.foldl_cons]
      exact ih _ _ (max_le_max h (le_refl x))

theorem runConc_cons (st : StreamingTasks) (i : ConcInput)
    (rest : List ConcInput) :
    runConc st (i :: rest) =
      (concStep st i).2 ++ runConc (concStep st i).1 rest := rfl

/-- Adding a scheduling event in front can only raise the received-sn
bound. -/
theorem concEventSns_le (i : ConcInput) (rest : List ConcInput) (a : Nat) :
    (concEventSns rest).foldl max a ≤
      (concEventSns (i :: rest)).foldl max a := by
  cases i with
  | reader it =>
      cases it with
      | ok m =>
          cases m with
          | event d =>
              rw [show concEventSns (ConcInput.reader (.ok (.event d)) ::
                  rest) = d.sn :: concEventSns rest from rfl,
                List.foldl_cons]
              exact foldl_max_mono _ _ _ (le_max_left a d.sn)
          | hello d => exact le_refl _
          | ping d => exact le_refl _
          | pong => exact le_refl _
          | resume d => exact le_refl _
          | reconnect d => exact le_refl _
          | resumeACK d => exact le_refl _
      | err e => exact le_refl _
  | workerSn => exact le_refl _
  | workerFeedFailed e => exact le_refl _
  | workerStopped => exact le_refl _

/-- Lifting the per-item error bounds over one more scheduling event. -/
theorem errBound_lift {sen : EventStreamSender} {wr : GatewayResumeArguments}
    (i : ConcInput) (rest : List ConcInput) (l : List ChannelItem)
    (h : ∀ item ∈ l, ∀ e, ChannelItem.errOf item = some e →
      (e.resume.session_id = sen.resume.session_id ∨
        e.resume.session_id = wr.session_id) ∧
      wr.sn ≤ e.resume.sn ∧
      e.resume.sn ≤ (concEventSns rest).foldl max sen.resume.sn) :
    ∀ item ∈ l, ∀ e, ChannelItem.errOf item = some e →
      (e.resume.session_id = sen.resume.session_id ∨
        e.resume.session_id = wr.session_id) ∧
      wr.sn ≤ e.resume.sn ∧
      e.resume.sn ≤ (concEventSns (i :: rest)).foldl max sen.resume.sn :=
  fun item hitem e he =>
    ⟨(h item hitem e he).1, (h item hitem e he).2.1,
      le_trans (h item hitem e he).2.2 (concEventSns_le i rest _)⟩

/-- A channel item that is neither a reader error nor worker-tagged is
chanRel-compatible with anything after it. -/
theorem chanRel_of_benign {a : ChannelItem} (h1 : a.isReaderError = false)
    (h2 : a.isFromWorker = false) (b : ChannelItem) : chanRel a b :=
  ⟨fun hc => absurd hc (by simp [h1]), fun hc => absurd hc (by simp [h2])⟩

theorem pairwise_of_all (R : ChannelItem → ChannelItem → Prop) :
    ∀ l : List ChannelItem, (∀ a ∈ l, ∀ b, R a b) → l.Pairwise R := by
  intro l
  induction l with
  | nil => intro _; exact List.Pairwise.nil
  | cons y ys ih =>
      intro h
      exact List.Pairwise.cons (fun b _ => h y (List.mem_cons_self _ _) b)
        (ih fun a ha b => h a (List.mem_cons_of_mem _ ha) b)

/-- A live-reader step leaves the worker fields alone and enqueues only
reader-tagged items. -/
theorem concStep_reader (sen : EventStreamSender)
    (wr : GatewayResumeArguments) (wa : Bool) (it : StreamItem) :
    (concStep ⟨sen, true, wr, wa⟩ (.reader it)).1.workerAlive = wa ∧
      ∀ item ∈ (concStep ⟨sen, true, wr, wa⟩ (.reader it)).2,
        item.isFromWorker = false := by
  cases it with
  | ok m =>
      cases m with
      | event d =>
          refine ⟨rfl, fun item h => ?_⟩
          obtain ⟨y, _, rfl⟩ := List.mem_map.1 (show item ∈
            (readerEventStep sen d).2.map
              (fun x => ChannelItem.fromReader (.ok x.event)) from h)
          rfl
      | hello d => exact ⟨rfl, fun item h => absurd h (List.not_mem_nil item)⟩
      | ping d => exact ⟨rfl, fun item h => absurd h (List.not_mem_nil item)⟩
      | pong => exact ⟨rfl, fun item h => absurd h (List.not_mem_nil item)⟩
      | resume d => exact ⟨rfl, fun item h => absurd h (List.not_mem_nil item)⟩
      | reconnect d =>
          refine ⟨rfl, fun item h => ?_⟩
          obtain rfl := List.mem_singleton.1 (show item ∈
            [ChannelItem.fromReader (.error (sen.send_err
              (.reconnect d.data.code d.data.err)))] from h)
          rfl
      | resumeACK d =>
          exact ⟨rfl, fun item h => absurd h (List.not_mem_nil item)⟩
  | err er =>
      refine ⟨rfl, fun item h => ?_⟩
      obtain rfl := List.mem_singleton.1 (show item ∈
        [ChannelItem.fromReader (.error (sen.send_err
          (.messageStream er)))] from h)
      rfl

/-- After the reader breaks, nothing reader-tagged is ever enqueued
again. -/
theorem runConc_noReader (tr : List ConcInput) :
    ∀ st : StreamingTasks, st.readerAlive = false →
      ∀ item ∈ runConc st tr, item.isFromReader = false := by
  induction tr with
  | nil =>
      intro st _ item h
      exact absurd h (List.not_mem_nil item)
  | cons i rest ih =>
      intro st hr item hitem
      obtain ⟨sen, ra, wr, wa⟩ := st
      dsimp only at hr
      subst hr
      rw [runConc_cons] at hitem
      cases i with
      | reader it =>
          rw [show concStep ⟨sen, false, wr, wa⟩ (.reader it) =
              (⟨sen, false, wr, wa⟩, []) from rfl] at hitem
          exact ih _ rfl item hitem
      | workerSn =>
          cases wa with
          | true =>
              rw [show concStep ⟨sen, false, wr, true⟩ .workerSn =
                  (⟨sen, false, wr, false⟩, []) from rfl] at hitem
              exact ih _ rfl item hitem
          | false =>
              rw [show concStep ⟨sen, false, wr, false⟩ .workerSn =
                  (⟨sen, false, wr, false⟩, []) from rfl] at hitem
              exact ih _ rfl item hitem
      | workerFeedFailed er =>
          cases wa with
          | true =>
              rw [show concStep ⟨sen, false, wr, true⟩
                  (.workerFeedFailed er) =
                  (⟨sen, false, wr, false⟩,
                    [ChannelItem.fromWorker ((initSender wr).send_err
                      (.messageStream er))]) from rfl] at hitem
              rcases List.mem_append.1 hitem with h | h
              · obtain rfl := List.mem_singleton.1 h
                rfl
              · exact ih _ rfl item h
          | false =>
              rw [show concStep ⟨sen, false, wr, false⟩
                  (.workerFeedFailed er) = (⟨sen, false, wr, false⟩, [])
                from rfl] at hitem
              exact ih _ rfl item hitem
      | workerStopped =>
          rw [show concStep ⟨sen, false, wr, wa⟩ .workerStopped =
              (⟨sen, false, wr, false⟩, []) from rfl] at hitem
          exact ih _ rfl item hitem

/-- After the ping worker breaks, nothing worker-tagged is ever enqueued
again. -/
theorem runConc_noWorker (tr : List ConcInput) :
    ∀ st : StreamingTasks, st.workerAlive = false →
      ∀ item ∈ runConc st tr, item.isFromWorker = false := by
  induction tr with
  | nil =>
      intro st _ item h
      exact absurd h (List.not_mem_nil item)
  | cons i rest ih =>
      intro st hw item hitem
      obtain ⟨sen, ra, wr, wa⟩ := st
      dsimp only at hw
      subst hw
      rw [runConc_cons] at hitem
      cases i with
      | reader it =>
          cases ra with
          | false =>
              rw [show concStep ⟨sen, false, wr, false⟩ (.reader it) =
                  (⟨sen, false, wr, false⟩, []) from rfl] at hitem
              exact ih _ rfl item hitem
          | true =>
              obtain ⟨hwa, hout⟩ := concStep_reader sen wr false it
              rcases List.mem_append.1 hitem with h | h
              · exact hout item h
              · exact ih _ hwa item h
      | workerSn =>
          rw [show concStep ⟨sen, ra, wr, false⟩ .workerSn =
              (⟨sen, ra, wr, false⟩, []) from rfl] at hitem
          exact ih _ rfl item hitem
      | workerFeedFailed er =>
          rw [show concStep ⟨sen, ra, wr, false⟩ (.workerFeedFailed er) =
              (⟨sen, ra, wr, false⟩, []) from rfl] at hitem
          exact ih _ rfl item hitem
      | workerStopped =>
          rw [show concStep ⟨sen, ra, wr, false⟩ .workerStopped =
              (⟨sen, ra, wr, false⟩, []) from rfl] at hitem
          exact ih _ rfl item hitem

/-- The two-task safety invariant: every error on the channel carries one of
the two tasks' session ids and an sn at least the worker's current recorded
sn and at most the running maximum of the reader's current sn and every
later received event sn; and the channel is pairwise per-producer final. -/
theorem runConc_spec (tr : List ConcInput) :
    ∀ st : StreamingTasks,
      (∀ x ∈ st.sender.buffer.buffer, x.sn ≤ st.sender.resume.sn) →
      st.workerResume.sn ≤ st.sender.resume.sn →
      (∀ item ∈ runConc st tr, ∀ e, ChannelItem.errOf item = some e →
          (e.resume.session_id = st.sender.resume.session_id ∨
            e.resume.session_id = st.workerResume.session_id) ∧
          st.workerResume.sn ≤ e.resume.sn ∧
          e.resume.sn ≤ (concEventSns tr).foldl max st.sender.resume.sn) ∧
        (runConc st tr).Pairwise chanRel := by
  induction tr with
  | nil =>
      intro st _ _
      exact ⟨fun item h => absurd h (List.not_mem_nil item),
        List.Pairwise.nil⟩
  | cons i rest ih =>
      intro st hhle hwr
      obtain ⟨sen, ra, wr, wa⟩ := st
      dsimp only at hhle hwr ⊢
      rw [runConc_cons]
      cases i with
      | reader it =>
          cases ra with
          | false =>
              rw [show concStep ⟨sen, false, wr, wa⟩ (.reader it) =
                  (⟨sen, false, wr, wa⟩, []) from rfl]
              dsimp only
              rw [List.nil_append]
              obtain ⟨ihA, ihB⟩ := ih ⟨sen, false, wr, wa⟩ hhle hwr
              exact ⟨errBound_lift _ rest _ ihA, ihB⟩
          | true =>
              cases it with
              | ok m =>
                  cases m with
                  | event d =>
                      obtain ⟨h1, h2, h3⟩ := readerEventStep_hle d hhle
                      rcases hstep : readerEventStep sen d with ⟨s1, out1⟩
                      rw [hstep] at h1 h2 h3
                      dsimp only at h1 h2 h3
                      rw [show concStep ⟨sen, true, wr, wa⟩
                          (.reader (.ok (.event d))) =
                          (⟨(readerEventStep sen d).1, true, wr, wa⟩,
                            (readerEventStep sen d).2.map
                              (fun x => ChannelItem.fromReader
                                (.ok x.event))) from rfl, hstep]
                      dsimp only
                      have hwr1 : wr.sn ≤ s1.resume.sn := by
                        rw [h2]
                        omega
                      obtain ⟨ihA, ihB⟩ := ih ⟨s1, true, wr, wa⟩ h1 hwr1
                      dsimp only at ihA
                      constructor
                      · intro item hitem e he
                        rcases List.mem_append.1 hitem with h | h
                        · obtain ⟨y, _, rfl⟩ := List.mem_map.1 h
                          exact absurd he (by simp [ChannelItem.errOf])
                        · obtain ⟨hs, hlo, hhi⟩ := ihA item h e he
                          refine ⟨?_, hlo, ?_⟩
                          · rcases hs with hs | hs
                            · exact Or.inl (by rw [← h3]; exact hs)
                            · exact Or.inr hs
                          · rw [show concEventSns
                                (ConcInput.reader (.ok (.event d)) :: rest) =
                                d.sn :: concEventSns rest from rfl,
                              List.foldl_cons]
                            rw [h2] at hhi
                            exact hhi
                      · refine List.pairwise_append.2 ⟨?_, ihB, ?_⟩
                        · refine pairwise_of_all chanRel _ fun a ha b => ?_
                          obtain ⟨y, _, rfl⟩ := List.mem_map.1 ha
                          refine chanRel_of_benign ?_ ?_ b
                          · rfl
                          · rfl
                        · intro a ha b _
                          obtain ⟨y, _, rfl⟩ := List.mem_map.1 ha
                          refine chanRel_of_benign ?_ ?_ b
                          · rfl
                          · rfl
                  | hello d =>
                      rw [show concStep ⟨sen, true, wr, wa⟩
                          (.reader (.ok (.hello d))) =
                          (⟨sen, true, wr, wa⟩, []) from rfl]
                      dsimp only
                      rw [List.nil_append]
                      obtain ⟨ihA, ihB⟩ := ih ⟨sen, true, wr, wa⟩ hhle hwr
                      exact ⟨errBound_lift _ rest _ ihA, ihB⟩
                  | ping d =>
                      rw [show concStep ⟨sen, true, wr, wa⟩
                          (.reader (.ok (.ping d))) =
                          (⟨sen, true, wr, wa⟩, []) from rfl]
                      dsimp only
                      rw [List.nil_append]
                      obtain ⟨ihA, ihB⟩ := ih ⟨sen, true, wr, wa⟩ hhle hwr
                      exact ⟨errBound_lift _ rest _ ihA, ihB⟩
                  | pong =>
                      rw [show concStep ⟨sen, true, wr, wa⟩
                          (.reader (.ok .pong)) =
                          (⟨sen, true, wr, wa⟩, []) from rfl]
                      dsimp only
                      rw [List.nil_append]
                      obtain ⟨ihA, ihB⟩ := ih ⟨sen, true, wr, wa⟩ hhle hwr
                      exact ⟨errBound_lift _ rest _ ihA, ihB⟩
                  | resume d =>
                      rw [show concStep ⟨sen, true, wr, wa⟩
                          (.reader (.ok (.resume d))) =
                          (⟨sen, true, wr, wa⟩, []) from rfl]
                      dsimp only
                      rw [List.nil_append]
                      obtain ⟨ihA, ihB⟩ := ih ⟨sen, true, wr, wa⟩ hhle hwr
                      exact ⟨errBound_lift _ rest _ ihA, ihB⟩
                  | resumeACK d =>
                      rw [show concStep ⟨sen, true, wr, wa⟩
                          (.reader (.ok (.resumeACK d))) =
                          (⟨sen, true, wr, wa⟩, []) from rfl]
                      dsimp only
                      rw [List.nil_append]
                      obtain ⟨ihA, ihB⟩ := ih ⟨sen, true, wr, wa⟩ hhle hwr
                      exact ⟨errBound_lift _ rest _ ihA, ihB⟩
                  | reconnect d =>
                      rw [show concStep ⟨sen, true, wr, wa⟩
                          (.reader (.ok (.reconnect d))) =
                          (⟨sen, false, wr, wa⟩,
                            [ChannelItem.fromReader (.error (sen.send_err
                              (.reconnect d.data.code d.data.err)))])
                        from rfl]
                      dsimp only
                      obtain ⟨ihA, ihB⟩ := ih ⟨sen, false, wr, wa⟩ hhle hwr
                      constructor
                      · intro item hitem e he
                        rcases List.mem_append.1 hitem with h | h
                        · obtain rfl := List.mem_singleton.1 h
                          obtain rfl := Option.some.inj
                            (show some (sen.send_err (.reconnect d.data.code
                              d.data.err)) = some e from he)
                          exact ⟨Or.inl rfl, hwr, le_foldl_max _ _⟩
                        · exact errBound_lift _ rest _ ihA item h e he
                      · refine List.pairwise_append.2
                          ⟨List.Pairwise.cons
                            (fun b hb => absurd hb (List.not_mem_nil b))
                            List.Pairwise.nil, ihB, ?_⟩
                        intro a ha b hb
                        obtain rfl := List.mem_singleton.1 ha
                        refine ⟨fun _ => ?_, fun hc => absurd hc
                          (by simp [ChannelItem.isFromWorker])⟩
                        exact runConc_noReader rest ⟨sen, false, wr, wa⟩
                          rfl b hb
              | err er =>
                  rw [show concStep ⟨sen, true, wr, wa⟩ (.reader (.err er)) =
                      (⟨sen, false, wr, wa⟩,
                        [ChannelItem.fromReader (.error (sen.send_err
                          (.messageStream er)))]) from rfl]
                  dsimp only
                  obtain ⟨ihA, ihB⟩ := ih ⟨sen, false, wr, wa⟩ hhle hwr
                  constructor
                  · intro item hitem e he
                    rcases List.mem_append.1 hitem with h | h
                    · obtain rfl := List.mem_singleton.1 h
                      obtain rfl := Option.some.inj
                        (show some (sen.send_err (.messageStream er)) =
                          some e from he)
                      exact ⟨Or.inl rfl, hwr, le_foldl_max _ _⟩
                    · exact errBound_lift _ rest _ ihA item h e he
                  · refine List.pairwise_append.2
                      ⟨List.Pairwise.cons
                        (fun b hb => absurd hb (List.not_mem_nil b))
                        List.Pairwise.nil, ihB, ?_⟩
                    intro a ha b hb
                    obtain rfl := List.mem_singleton.1 ha
                    refine ⟨fun _ => ?_, fun hc => absurd hc
                      (by simp [ChannelItem.isFromWorker])⟩
                    exact runConc_noReader rest ⟨sen, false, wr, wa⟩ rfl b hb
      | workerSn =>
          cases wa with
          | false =>
              rw [show concStep ⟨sen, ra, wr, false⟩ .workerSn =
                  (⟨sen, ra, wr, false⟩, []) from rfl]
              dsimp only
              rw [List.nil_append]
              obtain ⟨ihA, ihB⟩ := ih ⟨sen, ra, wr, false⟩ hhle hwr
              exact ⟨errBound_lift _ rest _ ihA, ihB⟩
          | true =>
              cases ra with
              | false =>
                  rw [show concStep ⟨sen, false, wr, true⟩ .workerSn =
                      (⟨sen, false, wr, false⟩, []) from rfl]
                  dsimp only
                  rw [List.nil_append]
                  obtain ⟨ihA, ihB⟩ := ih ⟨sen, false, wr, false⟩ hhle hwr
                  exact ⟨errBound_lift _ rest _ ihA, ihB⟩
              | true =>
                  rw [show concStep ⟨sen, true, wr, true⟩ .workerSn =
                      (⟨sen, true, update_sn wr sen.resume.sn, true⟩, [])
                    from rfl]
                  dsimp only
                  rw [List.nil_append]
                  have hwr1 : (update_sn wr sen.resume.sn).sn ≤
                      sen.resume.sn := by
                    rw [update_sn_sn]
                    omega
                  obtain ⟨ihA, ihB⟩ :=
                    ih ⟨sen, true, update_sn wr sen.resume.sn, true⟩ hhle
                      hwr1
                  dsimp only at ihA
                  refine ⟨?_, ihB⟩
                  intro item hitem e he
                  obtain ⟨hs, hlo, hhi⟩ := ihA item hitem e he
                  refine ⟨?_, ?_, le_trans hhi (concEventSns_le _ _ _)⟩
                  · rcases hs with hs | hs
                    · exact Or.inl hs
                    · refine Or.inr ?_
                      rw [← update_sn_session_id wr sen.resume.sn]
                      exact hs
                  · refine le_trans ?_ hlo
                    rw [update_sn_sn]
                    omega
      | workerFeedFailed er =>
          cases wa with
          | false =>
              rw [show concStep ⟨sen, ra, wr, false⟩ (.workerFeedFailed er) =
                  (⟨sen, ra, wr, false⟩, []) from rfl]
              dsimp only
              rw [List.nil_append]
              obtain ⟨ihA, ihB⟩ := ih ⟨sen, ra, wr, false⟩ hhle hwr
              exact ⟨errBound_lift _ rest _ ihA, ihB⟩
          | true =>
              rw [show concStep ⟨sen, ra, wr, true⟩ (.workerFeedFailed er) =
                  (⟨sen, ra, wr, false⟩,
                    [ChannelItem.fromWorker ((initSender wr).send_err
                      (.messageStream er))]) from rfl]
              dsimp only
              obtain ⟨ihA, ihB⟩ := ih ⟨sen, ra, wr, false⟩ hhle hwr
              constructor
              · intro item hitem e he
                rcases List.mem_append.1 hitem with h | h
                · obtain rfl := List.mem_singleton.1 h
                  obtain rfl := Option.some.inj
                    (show some ((initSender wr).send_err
                      (.messageStream er)) = some e from he)
                  exact ⟨Or.inr rfl, le_refl _,
                    le_trans hwr (le_foldl_max _ _)⟩
                · exact errBound_lift _ rest _ ihA item h e he
              · refine List.pairwise_append.2
                  ⟨List.Pairwise.cons
                    (fun b hb => absurd hb (List.not_mem_nil b))
                    List.Pairwise.nil, ihB, ?_⟩
                intro a ha b hb
                obtain rfl := List.mem_singleton.1 ha
                refine ⟨fun hc => absurd hc
                  (by simp [ChannelItem.isReaderError]), fun _ => ?_⟩
                exact runConc_noWorker rest ⟨sen, ra, wr, false⟩ rfl b hb
      | workerStopped =>
          rw [show concStep ⟨sen, ra, wr, wa⟩ .workerStopped =
              (⟨sen, ra, wr, false⟩, []) from rfl]
          dsimp only
          rw [List.nil_append]
          obtain ⟨ihA, ihB⟩ := ih ⟨sen, ra, wr, false⟩ hhle hwr
          exact ⟨errBound_lift _ rest _ ihA, ihB⟩

/-- A trace whose reader items before some terminal item are all
non-terminal: the channel is the prefix's items, then the reader's single
terminal error — resume sn the running maximum of the reader's pre-trace sn
and the received event sns, session id unchanged — and after it nothing
reader-tagged. -/
theorem runConc_reader_terminal (pre : List ConcInput) :
    ∀ (st : StreamingTasks) (t : StreamItem) (rest : List ConcInput),
      t.isTerminal = true → (∀ x ∈ pre, readerTerminal x = false) →
      st.readerAlive = true →
      (∀ x ∈ st.sender.buffer.buffer, x.sn ≤ st.sender.resume.sn) →
      ∃ (e : EventStreamError) (l2 : List ChannelItem),
        runConc st (pre ++ .reader t :: rest) =
            runConc st pre ++ .fromReader (.error e) :: l2 ∧
          (∀ y ∈ l2, y.isFromReader = false) ∧
          e.resume.sn = (concEventSns pre).foldl max st.sender.resume.sn ∧
          e.resume.session_id = st.sender.resume.session_id := by
  induction pre with
  | nil =>
      intro st t rest ht _ hra _
      obtain ⟨sen, ra, wr, wa⟩ := st
      dsimp only at hra ⊢
      subst hra
      cases t with
      | ok m =>
          cases m with
          | event d => simp [StreamItem.isTerminal] at ht
          | hello d => simp [StreamItem.isTerminal] at ht
          | ping d => simp [StreamItem.isTerminal] at ht
          | pong => simp [StreamItem.isTerminal] at ht
          | resume d => simp [StreamItem.isTerminal] at ht
          | reconnect d =>
              refine ⟨sen.send_err (.reconnect d.data.code d.data.err),
                runConc ⟨sen, false, wr, wa⟩ rest, rfl, ?_, rfl, rfl⟩
              exact fun y hy =>
                runConc_noReader rest ⟨sen, false, wr, wa⟩ rfl y hy
          | resumeACK d => simp [StreamItem.isTerminal] at ht
      | err er =>
          refine ⟨sen.send_err (.messageStream er),
            runConc ⟨sen, false, wr, wa⟩ rest, rfl, ?_, rfl, rfl⟩
          exact fun y hy =>
            runConc_noReader rest ⟨sen, false, wr, wa⟩ rfl y hy
  | cons x pre' ih =>
      intro st t rest ht hpre hra hhle
      obtain ⟨sen, ra, wr, wa⟩ := st
      dsimp only at hra hhle ⊢
      subst hra
      have hx : readerTerminal x = false := hpre x (List.mem_cons_self _ _)
      have hpre' : ∀ y ∈ pre', readerTerminal y = false :=
        fun y hy => hpre y (List.mem_cons_of_mem _ hy)
      rw [List.cons_append]
      simp only [runConc_cons]
      cases x with
      | reader it =>
          cases it with
          | ok m =>
              cases m with
              | event d =>
                  obtain ⟨h1, h2, h3⟩ := readerEventStep_hle d hhle
                  rcases hstep : readerEventStep sen d with ⟨s1, out1⟩
                  rw [hstep] at h1 h2 h3
                  dsimp only at h1 h2 h3
                  rw [show concStep ⟨sen, true, wr, wa⟩
                      (.reader (.ok (.event d))) =
                      (⟨(readerEventStep sen d).1, true, wr, wa⟩,
                        (readerEventStep sen d).2.map
                          (fun y => ChannelItem.fromReader (.ok y.event)))
                    from rfl, hstep]
                  dsimp only
                  obtain ⟨e, l2, heq, hl2, hsn, hsess⟩ :=
                    ih ⟨s1, true, wr, wa⟩ t rest ht hpre' rfl h1
                  dsimp only at hsn hsess
                  refine ⟨e, l2, ?_, hl2, ?_, ?_⟩
                  · rw [heq, List.append_assoc]
                  · rw [hsn, h2]
                    rfl
                  · rw [hsess, h3]
              | hello d =>
                  rw [show concStep ⟨sen, true, wr, wa⟩
                      (.reader (.ok (.hello d))) =
                      (⟨sen, true, wr, wa⟩, []) from rfl]
                  dsimp only
                  simp only [List.nil_append]
                  exact ih ⟨sen, true, wr, wa⟩ t rest ht hpre' rfl hhle
              | ping d =>
                  rw [show concStep ⟨sen, true, wr, wa⟩
                      (.reader (.ok (.ping d))) =
                      (⟨sen, true, wr, wa⟩, []) from rfl]
                  dsimp only
                  simp only [List.nil_append]
                  exact ih ⟨sen, true, wr, wa⟩ t rest ht hpre' rfl hhle
              | pong =>
                  rw [show concStep ⟨sen, true, wr, wa⟩
                      (.reader (.ok .pong)) =
                      (⟨sen, true, wr, wa⟩, []) from rfl]
                  dsimp only
                  simp only [List.nil_append]
                  exact ih ⟨sen, true, wr, wa⟩ t rest ht hpre' rfl hhle
              | resume d =>
                  rw [show concStep ⟨sen, true, wr, wa⟩
                      (.reader (.ok (.resume d))) =
                      (⟨sen, true, wr, wa⟩, []) from rfl]
                  dsimp only
                  simp only [List.nil_append]
                  exact ih ⟨sen, true, wr, wa⟩ t rest ht hpre' rfl hhle
              | resumeACK d =>
                  rw [show concStep ⟨sen, true, wr, wa⟩
                      (.reader (.ok (.resumeACK d))) =
                      (⟨sen, true, wr, wa⟩, []) from rfl]
                  dsimp only
                  simp only [List.nil_append]
                  exact ih ⟨sen, true, wr, wa⟩ t rest ht hpre' rfl hhle
              | reconnect d =>
                  simp [readerTerminal, StreamItem.isTerminal] at hx
          | err er =>
              simp [readerTerminal, StreamItem.isTerminal] at hx
      | workerSn =>
          cases wa with
          | false =>
              rw [show concStep ⟨sen, true, wr, false⟩ .workerSn =
                  (⟨sen, true, wr, false⟩, []) from rfl]
              dsimp only
              simp only [List.nil_append]
              exact ih ⟨sen, true, wr, false⟩ t rest ht hpre' rfl hhle
          | true =>
              rw [show concStep ⟨sen, true, wr, true⟩ .workerSn =
                  (⟨sen, true, update_sn wr sen.resume.sn, true⟩, [])
                from rfl]
              dsimp only
              simp only [List.nil_append]
              exact ih ⟨sen, true, update_sn wr sen.resume.sn, true⟩ t rest
                ht hpre' rfl hhle
      | workerFeedFailed er =>
          cases wa with
          | false =>
              rw [show concStep ⟨sen, true, wr, false⟩
                  (.workerFeedFailed er) = (⟨sen, true, wr, false⟩, [])
                from rfl]
              dsimp only
              simp only [List.nil_append]
              exact ih ⟨sen, true, wr, false⟩ t rest ht hpre' rfl hhle
          | true =>
              rw [show concStep ⟨sen, true, wr, true⟩ (.workerFeedFailed er)
                  = (⟨sen, true, wr, false⟩,
                    [ChannelItem.fromWorker ((initSender wr).send_err
                      (.messageStream er))]) from rfl]
              dsimp only
              obtain ⟨e, l2, heq, hl2, hsn, hsess⟩ :=
                ih ⟨sen, true, wr, false⟩ t rest ht hpre' rfl hhle
              refine ⟨e, l2, ?_, hl2, hsn, hsess⟩
              rw [heq, List.append_assoc]
      | workerStopped =>
          rw [show concStep ⟨sen, true, wr, wa⟩ .workerStopped =
              (⟨sen, true, wr, false⟩, []) from rfl]
          dsimp only
          simp only [List.nil_append]
          exact ih ⟨sen, true, wr, false⟩ t rest ht hpre' rfl hhle

/-- C2 counterexample.  A run from a fresh resume state (sn 0) in which the
reader receives one out-of-order Event frame (sn 5, never delivered: the
channel holds no Ok item) and then a Reconnect: the terminal error carries
resume sn 5, while the sn of the last delivered event (there is none) and
the pre-run value are 0 — so the enqueued error's resume sn does not equal
the last delivered sn. -/
theorem resume_sn_not_last_delivered :
    runConc (initTasks ⟨0, "sess"⟩)
        [.reader (.ok (.event ⟨5, Json.null⟩)),
          .reader (.ok (.reconnect ⟨⟨41008, "Missing params"⟩⟩))] =
      [.fromReader (.error
        ⟨⟨5, "sess"⟩, .reconnect 41008 "Missing params"⟩)] ∧
      (5 : Nat) ≠ 0 :=
  ⟨rfl, by omega⟩

/-- C2 amended.  Two tasks enqueue on the consumer channel: the streaming
reader, and the ping worker holding a cloned sender whose recorder may lag
the reader's.  Every EventStreamError either task enqueues carries the
run's session id and a resume sn between the pre-run sn and the maximum of
the pre-run sn and all received Event sns; after a reader-enqueued error no
reader-enqueued item follows and after the worker's error no
worker-enqueued item follows, so each task enqueues at most one error,
final for its producer (the worker's error need not be the channel's last
item); and the error the reader enqueues at its first terminal item carries
exactly the maximum of the pre-run sn and the sns of the Event frames the
reader received before it — at least, but not always equal to, the sn of
the last delivered event. -/
theorem terminal_error_resume :
    (∀ (r0 : GatewayResumeArguments) (tr : List ConcInput),
        ∀ item ∈ runConc (initTasks r0) tr, ∀ e, item.errOf = some e →
          e.resume.session_id = r0.session_id ∧
            r0.sn ≤ e.resume.sn ∧
            e.resume.sn ≤ (concEventSns tr).foldl max r0.sn) ∧
      (∀ (r0 : GatewayResumeArguments) (tr : List ConcInput),
        (runConc (initTasks r0) tr).Pairwise chanRel) ∧
      ∀ (r0 : GatewayResumeArguments) (pre : List ConcInput)
        (t : StreamItem) (rest : List ConcInput),
        t.isTerminal = true → (∀ x ∈ pre, readerTerminal x = false) →
        ∃ (e : EventStreamError) (l2 : List ChannelItem),
          runConc (initTasks r0) (pre ++ .reader t :: rest) =
              runConc (initTasks r0) pre ++ .fromReader (.error e) :: l2 ∧
            (∀ y ∈ l2, y.isFromReader = false) ∧
            e.resume.sn = (concEventSns pre).foldl max r0.sn ∧
            e.resume.session_id = r0.session_id := by
  refine ⟨?_, ?_, ?_⟩
  · intro r0 tr item hitem e he
    obtain ⟨h, _⟩ := runConc_spec tr (initTasks r0)
      (fun x hx => absurd hx (List.not_mem_nil x)) (le_refl r0.sn)
    obtain ⟨hs, hlo, hhi⟩ := h item hitem e he
    refine ⟨?_, hlo, hhi⟩
    rcases hs with hs | hs
    · exact hs
    · exact hs
  · intro r0 tr
    exact (runConc_spec tr (initTasks r0)
      (fun x hx => absurd hx (List.not_mem_nil x)) (le_refl r0.sn)).2
  · intro r0 pre t rest ht hpre
    exact runConc_reader_terminal pre (initTasks r0) t rest ht hpre rfl
      (fun x hx => absurd hx (List.not_mem_nil x))

/-- C2 amended, witnessed at a concrete run: the reader receives one
undelivered event (sn 7), the ping worker observes the sn watch, then the
reader hits a fatal transport error. -/
theorem terminal_error_resume_witness :
    ∃ (e : EventStreamError) (l2 : List ChannelItem),
      runConc (initTasks ⟨3, "sid"⟩)
          ([.reader (.ok (.event ⟨7, Json.null⟩)), .workerSn] ++
            .reader (.err (.websocket ⟨"broken"⟩)) :: []) =
          runConc (initTasks ⟨3, "sid"⟩)
              [.reader (.ok (.event ⟨7, Json.null⟩)), .workerSn] ++
            .fromReader (.error e) :: l2 ∧
        (∀ y ∈ l2, y.isFromReader = false) ∧
        e.resume.sn = (concEventSns
          [.reader (.ok (.event ⟨7, Json.null⟩)), .workerSn]).foldl max 3 ∧
        e.resume.session_id = "sid" := by
  refine terminal_error_resume.2.2 ⟨3, "sid"⟩
    [.reader (.ok (.event ⟨7, Json.null⟩)), .workerSn]
    (.err (.websocket ⟨"broken"⟩)) [] rfl ?_
  intro x hx
  rcases List.mem_cons.1 hx with rfl | hx2
  · rfl
  · obtain rfl := List.mem_singleton.1 hx2
    rfl

/- Decimal digit helper lemmas for the u64 query parameter. -/

theorem natDigits_lt_ten (n : Nat) : ∀ d ∈ natDigits n, d < 10 := by
  induction n using Nat.strong_induction_on with
  | _ n ih =>
      rw [natDigits]
      split
      · next h => intro d hd; rw [List.mem_singleton] at hd; omega
      · next h =>
          intro d hd
          rw [List.mem_append, List.mem_singleton] at hd
          rcases hd with hd | rfl
          · exact ih (n / 10) (Nat.div_lt_self (by omega) (by omega)) d hd
          · exact Nat.mod_lt _ (by omega)

theorem natDigits_ne_nil (n : Nat) : natDigits n ≠ [] := by
  rw [natDigits]
  split <;> simp

theorem natDigits_val (n : Nat) :
    (natDigits n).foldl (fun a d => a * 10 + d) 0 = n := by
  induction n using Nat.strong_induction_on with
  | _ n ih =>
      rw [natDigits]
      split
      · next h => simp
      · next h =>
          rw [List.foldl_append,
            ih (n / 10) (Nat.div_lt_self (by omega) (by omega))]
          simp only [List.foldl_cons, List.foldl_nil]
          omega

theorem digitToChar_isDigit {d : Nat} (h : d < 10) :
    (digitToChar d).isDigit = true := by
  interval_cases d <;> decide

theorem digitToChar_toNat {d : Nat} (h : d < 10) :
    (digitToChar d).toNat - 48 = d := by
  interval_cases d <;> decide

theorem foldl_digit_chars (l : List Nat) (hl : ∀ d ∈ l, d < 10) :
    ∀ a : Nat,
      l.foldl (fun a d => a * 10 + ((digitToChar d).toNat - 48)) a =
        l.foldl (fun a d => a * 10 + d) a := by
  induction l with
  | nil => intro a; rfl
  | cons x xs ih =>
      intro a
      simp only [List.foldl_cons]
      rw [digitToChar_toNat (hl x (List.mem_cons_self _ _))]
      exact ih (fun d hd => hl d (List.mem_cons_of_mem _ hd)) _

/-- The modelled u64 Display and FromStr round-trip. -/
theorem parseU64_u64ToString (n : Nat) :
    parseU64 (u64ToString n) = some n := by
  have hdata : (u64ToString n).data = (natDigits n).map digitToChar := rfl
  rw [parseU64, if_pos, hdata, List.foldl_map,
    foldl_digit_chars _ (natDigits_lt_ten n), natDigits_val]
  refine ⟨?_, ?_⟩
  · rw [hdata, Ne, List.map_eq_nil_iff]
    exact natDigits_ne_nil n
  · rw [hdata, List.all_eq_true]
    intro c hc
    obtain ⟨d, hd, rfl⟩ := List.mem_map.1 hc
    exact digitToChar_isDigit (natDigits_lt_ten n d hd)

/-- Re-encoding a parsed GatewayURLInfo and parsing the result: the only
component that can change is the port, through the default-port
normalization of the url crate's set_port. -/
theorem from_str_url (g : GatewayURLInfo)
    (hs : g.schema = "wss" ∨ g.schema = "ws") :
    GatewayURLInfo.from_str g.url =
      .ok { g with port := setPort g.schema g.port } := by
  rcases g with ⟨schema, host, port, path, compress, token, resume⟩
  rcases hs with rfl | rfl <;>
    rcases resume with _ | ⟨sn, sid⟩ <;>
      rcases compress with _ | _ <;>
        simp [GatewayURLInfo.from_str, GatewayURLInfo.url, queryGet,
          List.lookup, parseU64_u64ToString, bind, Except.bind, pure,
          Except.pure]

/-- The components of a successful parse: the schema and port are taken from
the Url unchanged, and the schema passed the ws/wss check. -/
theorem from_str_fields {u : Url} {info : GatewayURLInfo}
    (h : GatewayURLInfo.from_str u = .ok info) :
    info.schema = u.scheme ∧ info.port = u.port ∧
      (u.scheme = "wss" ∨ u.scheme = "ws") := by
  rw [GatewayURLInfo.from_str] at h
  simp only [bind, Except.bind, pure, Except.pure] at h
  repeat' split at h
  all_goals try (rw [Except.ok.injEq] at h; subst h)
  all_goals first
    | (exact absurd h (by simp))
    | (exact ⟨rfl, rfl, not_not.1 (by assumption)⟩)

/-- from_str reads only the scheme, host, port, path and the five core query
parameters: two Urls agreeing on those parse identically. -/
theorem from_str_congr (u u' : Url) (hscheme : u'.scheme = u.scheme)
    (hhost : u'.host = u.host) (hport : u'.port = u.port)
    (hpath : u'.path = u.path)
    (hq : ∀ k, k = "compress" ∨ k = "token" ∨ k = "resume" ∨ k = "sn" ∨
      k = "session_id" → queryGet u'.query k = queryGet u.query k) :
    GatewayURLInfo.from_str u' = GatewayURLInfo.from_str u := by
  rw [GatewayURLInfo.from_str, GatewayURLInfo.from_str, hscheme, hhost,
    hport, hpath, hq "compress" (by tauto), hq "token" (by tauto),
    hq "resume" (by tauto), hq "sn" (by tauto), hq "session_id" (by tauto)]

/-- C7 counterexample.  Re-encoding is not lossless on query parameters: the
URL ws://h/p?token=t&foo=bar parses (foo=bar ignored), but the re-encoded
URL's query is exactly compress=0&token=t — not a permutation of the
original query, and foo=bar is gone. -/
theorem reencode_drops_unknown_query :
    GatewayURLInfo.from_str
        ⟨"ws", some "h", none, "/p", [("token", "t"), ("foo", "bar")]⟩ =
      .ok ⟨"ws", "h", none, "/p", false, "t", none⟩ ∧
      (GatewayURLInfo.url ⟨"ws", "h", none, "/p", false, "t", none⟩).query =
        [("compress", "0"), ("token", "t")] ∧
      ¬ List.Perm
        (GatewayURLInfo.url ⟨"ws", "h", none, "/p", false, "t", none⟩).query
        [("token", "t"), ("foo", "bar")] ∧
      ("foo", "bar") ∉
        (GatewayURLInfo.url ⟨"ws", "h", none, "/p", false, "t", none⟩).query := by
  refine ⟨by rfl, rfl, ?_, by decide⟩
  intro hperm
  have : ("foo", "bar") ∈
      (GatewayURLInfo.url ⟨"ws", "h", none, "/p", false, "t", none⟩).query :=
    hperm.mem_iff.2 (by decide)
  exact absurd this (by decide)

/-- C7 amended.  Re-encoding keeps the scheme, host, port and path, and its
query is exactly the core parameters derived from the parsed struct —
compress, token and, when resuming, resume, sn and session_id; every other
query parameter of the original URL is dropped by the re-encoding, and is
ignored by the parser (two URLs agreeing on the components and the five core
parameters parse identically). -/
theorem reencode_core_query (u : Url) (info : GatewayURLInfo)
    (h : GatewayURLInfo.from_str u = .ok info) :
    (info.url.query =
        [("compress", if info.compress then "1" else "0"),
          ("token", info.token)] ++
          (match info.resume with
            | some r => [("resume", "1"), ("sn", u64ToString r.sn),
                ("session_id", r.session_id)]
            | none => [])) ∧
      (∀ kv ∈ info.url.query,
        kv.1 = "compress" ∨ kv.1 = "token" ∨ kv.1 = "resume" ∨
          kv.1 = "sn" ∨ kv.1 = "session_id") ∧
      ∀ u' : Url, u'.scheme = u.scheme → u'.host = u.host →
        u'.port = u.port → u'.path = u.path →
        (∀ k, k = "compress" ∨ k = "token" ∨ k = "resume" ∨ k = "sn" ∨
          k = "session_id" → queryGet u'.query k = queryGet u.query k) →
        GatewayURLInfo.from_str u' = .ok info := by
  refine ⟨rfl, ?_, ?_⟩
  · intro kv hkv
    rw [GatewayURLInfo.url] at hkv
    dsimp only at hkv
    rcases hr : info.resume with _ | r <;> rw [hr] at hkv
    · simp only [List.append_nil, List.mem_cons, List.not_mem_nil,
        or_false] at hkv
      rcases hkv with rfl | rfl <;> simp
    · simp only [List.mem_append, List.mem_cons, List.not_mem_nil,
        or_false] at hkv
      rcases hkv with (rfl | rfl) | rfl | rfl | rfl <;> simp
  · intro u' h1 h2 h3 h4 h5
    rw [from_str_congr u u' h1 h2 h3 h4 h5, h]

/-- C7 amended, witnessed at a concrete parse: the URL
ws://h/p?token=t&foo=bar re-encodes with exactly the core query. -/
theorem reencode_core_query_witness :
    ((GatewayURLInfo.url ⟨"ws", "h", none, "/p", false, "t", none⟩).query =
        [("compress", if false then "1" else "0"), ("token", "t")] ++ []) ∧
      (∀ kv ∈ (GatewayURLInfo.url
          ⟨"ws", "h", none, "/p", false, "t", none⟩).query,
        kv.1 = "compress" ∨ kv.1 = "token" ∨ kv.1 = "resume" ∨
          kv.1 = "sn" ∨ kv.1 = "session_id") := by
  have h := reencode_core_query
    ⟨"ws", some "h", none, "/p", [("token", "t"), ("foo", "bar")]⟩
    ⟨"ws", "h", none, "/p", false, "t", none⟩ (by rfl)
  exact ⟨h.1, h.2.1⟩

/-- C8.  URL round-trip.  The scenario URL
ws://h/p?compress=1&token=t&resume=1&sn=9&session_id=s parses, and
re-encoding the parsed struct and parsing again returns the identical
struct; in general, every GatewayURLInfo obtained from a successful parse
(whose port, as the url crate guarantees of parses, is not the scheme's
default) re-parses from its own url() unchanged. -/
theorem url_round_trip :
    (GatewayURLInfo.from_str
          ⟨"ws", some "h", none, "/p",
            [("compress", "1"), ("token", "t"), ("resume", "1"), ("sn", "9"),
              ("session_id", "s")]⟩ =
        .ok ⟨"ws", "h", none, "/p", true, "t", some ⟨9, "s"⟩⟩ ∧
      GatewayURLInfo.from_str
          (GatewayURLInfo.url
            ⟨"ws", "h", none, "/p", true, "t", some ⟨9, "s"⟩⟩) =
        .ok ⟨"ws", "h", none, "/p", true, "t", some ⟨9, "s"⟩⟩) ∧
    ∀ (u : Url) (info : GatewayURLInfo),
      GatewayURLInfo.from_str u = .ok info →
      (∀ p, u.port = some p → defaultPort u.scheme ≠ some p) →
      GatewayURLInfo.from_str info.url = .ok info := by
  refine ⟨⟨by rfl, from_str_url
    ⟨"ws", "h", none, "/p", true, "t", some ⟨9, "s"⟩⟩ (Or.inr rfl)⟩, ?_⟩
  intro u info h hport
  obtain ⟨hschema, hporteq, hs⟩ := from_str_fields h
  have hrt := from_str_url info (by rw [hschema]; exact hs)
  have hsp : setPort info.schema info.port = info.port := by
    rcases hpc : info.port with _ | p
    · rfl
    · rw [setPort, if_neg]
      intro hdef
      exact hport p (by rw [← hporteq]; exact hpc)
        (by rw [← hschema]; exact hdef)
  rw [hsp] at hrt
  exact hrt

/-- C9.  Gateway connect makes at most two attempts: exactly one when the
first succeeds and exactly two otherwise (a second attempt iff the first
failed); the result is a success iff either attempt succeeded (carrying the
connection of the first successful attempt), and it is a ConnectGatewayError
carrying the URL and the underlying (second) failure iff both attempts
failed. -/
theorem connect_two_attempts {C : Type} (url : String)
    (try1 try2 : Except WsError C) :
    (connectGateway url try1 try2).2 ≤ 2 ∧
      ((connectGateway url try1 try2).2 = 2 ↔ try1.isOk = false) ∧
      ((connectGateway url try1 try2).1.isOk = true ↔
        (try1.isOk = true ∨ try2.isOk = true)) ∧
      (∀ c, try1 = .ok c → (connectGateway url try1 try2).1 = .ok c) ∧
      (∀ e1 e2, try1 = .error e1 → try2 = .error e2 →
        (connectGateway url try1 try2).1 = .error { url, source := e2 }) := by
  match try1 with
  | .ok c =>
      refine ⟨by simp [connectGateway], by simp [connectGateway, Except.isOk, Except.toBool], ?_, ?_, ?_⟩ <;>
        simp [connectGateway, Except.isOk, Except.toBool]
  | .error e =>
      match try2 with
      | .ok c =>
          refine ⟨by simp [connectGateway], by simp [connectGateway, Except.isOk, Except.toBool], ?_, ?_, ?_⟩ <;>
            simp [connectGateway, Except.isOk, Except.toBool]
      | .error e2 =>
          refine ⟨by simp [connectGateway], by simp [connectGateway, Except.isOk, Except.toBool], ?_, ?_, ?_⟩ <;>
            simp [connectGateway, Except.isOk, Except.toBool]

/- C5 helper lemmas: the streaming reader loop as a transition system. -/

theorem streamingStep_absorb {s : StreamingLoop} (h : s.mode ≠ .running)
    (i : LoopInput) : streamingStep s i = s := by
  rw [streamingStep.eq_def, if_pos h]

theorem runTrace_cons (s : StreamingLoop) (x : LoopInput)
    (tr : List LoopInput) :
    runTrace s (x :: tr) = runTrace (streamingStep s x) tr := rfl

theorem runTrace_absorb (tr : List LoopInput) :
    ∀ s : StreamingLoop, s.mode ≠ .running → runTrace s tr = s := by
  induction tr with
  | nil => intro s _; rfl
  | cons x tr' ih =>
      intro s h
      rw [runTrace_cons, streamingStep_absorb h]
      exact ih s h

theorem streamingStep_frame_nonreconnect {s : StreamingLoop}
    (hm : s.mode = .running) (m : Message)
    (hnr : ∀ d, m ≠ .reconnect d) :
    streamingStep s (.frame m) =
      { s with pong_timeout_tick := none, pong_timeout_count := 0 } := by
  rw [streamingStep.eq_def, if_neg (by simp [hm])]
  rcases m with d | d | d | _ | d | d | d
  · rfl
  · rfl
  · rfl
  · rfl
  · rfl
  · exact absurd rfl (hnr d)
  · rfl

/-- The state invariant of the loop: while running, at most one timeout has
accumulated, the sn notifier is still held and the ping worker not yet
awaited; once in the Timeout state, the notifier has been dropped and the
worker awaited. -/
def LoopInv (s : StreamingLoop) : Prop :=
  (s.mode = .running → s.pong_timeout_count ≤ 1 ∧ s.sn_notifier = true ∧
    s.ping_worker_joined = false) ∧
  (s.mode = .movedToTimeout → s.sn_notifier = false ∧
    s.ping_worker_joined = true)

theorem loopInv_step {s : StreamingLoop} (h : LoopInv s) (i : LoopInput) :
    LoopInv (streamingStep s i) := by
  by_cases hm : s.mode = .running
  · obtain ⟨hc, hsn, hpw⟩ := h.1 hm
    rw [streamingStep.eq_def, if_neg (by simp [hm])]
    rcases i with _ | t | _ | m | e
    · rcases htick : s.pong_timeout_tick with _ | tk
      · exact h
      · dsimp only
        by_cases h2 : STREAMING_STATE_PONG_TIMEOUT_MAX_COUNT ≤
            s.pong_timeout_count + 1
        · rw [if_pos h2]
          exact ⟨(by intro hcon; simp at hcon), fun _ => ⟨rfl, rfl⟩⟩
        · rw [if_neg h2]
          rw [STREAMING_STATE_PONG_TIMEOUT_MAX_COUNT] at h2
          exact ⟨fun _ => ⟨(by simp; omega), hsn, hpw⟩,
            (by intro hcon; simp [hm] at hcon)⟩
    · exact ⟨fun _ => ⟨hc, hsn, hpw⟩, (by intro hcon; simp [hm] at hcon)⟩
    · exact ⟨(by intro hcon; simp at hcon), (by intro hcon; simp at hcon)⟩
    · rcases m with d | d | d | _ | d | d | d
      · exact ⟨fun _ => ⟨(by simp), hsn, hpw⟩,
          (by intro hcon; simp [hm] at hcon)⟩
      · exact ⟨fun _ => ⟨(by simp), hsn, hpw⟩,
          (by intro hcon; simp [hm] at hcon)⟩
      · exact ⟨fun _ => ⟨(by simp), hsn, hpw⟩,
          (by intro hcon; simp [hm] at hcon)⟩
      · exact ⟨fun _ => ⟨(by simp), hsn, hpw⟩,
          (by intro hcon; simp [hm] at hcon)⟩
      · exact ⟨fun _ => ⟨(by simp), hsn, hpw⟩,
          (by intro hcon; simp [hm] at hcon)⟩
      · exact ⟨(by intro hcon; simp at hcon), (by intro hcon; simp at hcon)⟩
      · exact ⟨fun _ => ⟨(by simp), hsn, hpw⟩,
          (by intro hcon; simp [hm] at hcon)⟩
    · exact ⟨(by intro hcon; simp at hcon), (by intro hcon; simp at hcon)⟩
  · rw [streamingStep_absorb hm]
    exact h

theorem loopInv_runTrace (tr : List LoopInput) :
    ∀ s : StreamingLoop, LoopInv s → LoopInv (runTrace s tr) := by
  induction tr with
  | nil => intro s h; exact h
  | cons x tr' ih =>
      intro s h
      rw [runTrace_cons]
      exact ih _ (loopInv_step h x)

/-- Reaching the Timeout state needs two pong expiries with no received
frame between them: a running state with at most one accumulated timeout
that reaches Timeout got there through an expiry, preceded — unless it
already stood at one timeout — by an earlier expiry with no frame in
between. -/
theorem timeout_needs_two (tr : List LoopInput) :
    ∀ s : StreamingLoop, s.mode = .running → s.pong_timeout_count ≤ 1 →
      (runTrace s tr).mode = .movedToTimeout →
      (s.pong_timeout_count = 1 ∧ ∃ t2 t3,
          tr = t2 ++ .pongExpiry :: t3 ∧ ∀ x ∈ t2, x.isFrame = false) ∨
        ∃ t1 t2 t3, tr = t1 ++ .pongExpiry :: t2 ++ .pongExpiry :: t3 ∧
          ∀ x ∈ t2, x.isFrame = false := by
  induction tr with
  | nil =>
      intro s hm _ hrun
      rw [runTrace, List.foldl_nil, hm] at hrun
      cases hrun
  | cons x tr' ih =>
      intro s hm hcount hrun
      rw [runTrace_cons] at hrun
      rcases x with _ | t | _ | m | e
      · -- pongExpiry
        rcases htick : s.pong_timeout_tick with _ | tk
        · have hs' : streamingStep s .pongExpiry = s := by
            rw [streamingStep.eq_def, if_neg (by simp [hm])]
            dsimp only
            rw [htick]
          rw [hs'] at hrun
          rcases ih s hm hcount hrun with ⟨hc1, t2, t3, heq, hnf⟩ |
            ⟨t1, t2, t3, heq, hnf⟩
          · refine .inl ⟨hc1, .pongExpiry :: t2, t3, by subst heq; simp, ?_⟩
            intro y hy
            rcases List.mem_cons.1 hy with rfl | hy
            · rfl
            · exact hnf y hy
          · exact .inr ⟨.pongExpiry :: t1, t2, t3, by subst heq; simp, hnf⟩
        · by_cases hc1 : s.pong_timeout_count = 1
          · exact .inl ⟨hc1, [], tr', rfl, by intro y hy; cases hy⟩
          · have hc0 : s.pong_timeout_count = 0 := by omega
            have hs' : streamingStep s .pongExpiry =
                { s with
                  pong_timeout_count := s.pong_timeout_count + 1
                  pong_timeout_tick := none } := by
              rw [streamingStep.eq_def, if_neg (by simp [hm])]
              dsimp only
              rw [htick]
              dsimp only
              rw [if_neg]
              rw [STREAMING_STATE_PONG_TIMEOUT_MAX_COUNT]
              omega
            rw [hs'] at hrun
            rcases ih _ (by simp [hm]) (by simp; omega) hrun with
              ⟨_, t2, t3, heq, hnf⟩ | ⟨t1, t2, t3, heq, hnf⟩
            · exact .inr ⟨[], t2, t3, by subst heq; simp, hnf⟩
            · exact .inr ⟨.pongExpiry :: t1, t2, t3, by subst heq; simp, hnf⟩
      · -- watchUpdate
        have hs' : streamingStep s (.watchUpdate t) =
            { s with pong_timeout_tick := t } := by
          rw [streamingStep.eq_def, if_neg (by simp [hm])]
        rw [hs'] at hrun
        rcases ih _ (by simp [hm]) (by simpa using hcount) hrun with
          ⟨hc1, t2, t3, heq, hnf⟩ | ⟨t1, t2, t3, heq, hnf⟩
        · refine .inl ⟨by simpa using hc1, .watchUpdate t :: t2, t3,
            by subst heq; simp, ?_⟩
          intro y hy
          rcases List.mem_cons.1 hy with rfl | hy
          · rfl
          · exact hnf y hy
        · exact .inr ⟨.watchUpdate t :: t1, t2, t3, by subst heq; simp, hnf⟩
      · -- watchClosed
        have hs' : streamingStep s .watchClosed =
            { s with mode := .stopped } := by
          rw [streamingStep.eq_def, if_neg (by simp [hm])]
        rw [hs', runTrace_absorb tr' _ (by simp)] at hrun
        simp at hrun
      · -- a received frame
        by_cases hrec : ∃ d, m = .reconnect d
        · obtain ⟨d, rfl⟩ := hrec
          have hs' : streamingStep s (.frame (.reconnect d)) =
              { s with
                pong_timeout_tick := none
                pong_timeout_count := 0
                mode := .stopped } := by
            rw [streamingStep.eq_def, if_neg (by simp [hm])]
          rw [hs', runTrace_absorb tr' _ (by simp)] at hrun
          simp at hrun
        · rw [streamingStep_frame_nonreconnect hm m
            (by intro x hx; exact hrec ⟨x, hx⟩)] at hrun
          rcases ih _ (by simp [hm]) (by simp) hrun with
            ⟨hc1, _, _, _, _⟩ | ⟨t1, t2, t3, heq, hnf⟩
          · simp at hc1
          · exact .inr ⟨.frame m :: t1, t2, t3, by subst heq; simp, hnf⟩
      · -- frameErr
        have hs' : streamingStep s (.frameErr e) =
            { s with mode := .stopped } := by
          rw [streamingStep.eq_def, if_neg (by simp [hm])]
        rw [hs', runTrace_absorb tr' _ (by simp)] at hrun
        simp at hrun

/-- C5.  Pong-timeout escalation: from a running loop state, a pong-deadline
expiry moves the reader to the Timeout state exactly when a deadline was
published and the incremented counter reaches
STREAMING_STATE_PONG_TIMEOUT_MAX_COUNT (= 2); the counter grows only on an
expiry with a published deadline, which also clears the tick; a received
frame resets the counter to 0 and clears the tick; whenever a run from the
initial loop state stands in the Timeout state it has dropped the sn
notifier and awaited the ping worker; and any such run contains two pong
expiries with no received frame between them. -/
theorem pong_timeout_escalation :
    (∀ st : StreamingLoop, st.mode = .running →
      ((streamingStep st .pongExpiry).mode = .movedToTimeout ↔
        st.pong_timeout_tick.isSome = true ∧
          STREAMING_STATE_PONG_TIMEOUT_MAX_COUNT ≤
            st.pong_timeout_count + 1)) ∧
      (∀ (st : StreamingLoop) (i : LoopInput),
        st.pong_timeout_count < (streamingStep st i).pong_timeout_count →
          i = .pongExpiry ∧ st.pong_timeout_tick.isSome = true ∧
            (streamingStep st i).pong_timeout_tick = none) ∧
      (∀ (st : StreamingLoop) (m : Message), st.mode = .running →
        (streamingStep st (.frame m)).pong_timeout_count = 0 ∧
          (streamingStep st (.frame m)).pong_timeout_tick = none) ∧
      (∀ tr : List LoopInput,
        (runTrace initLoop tr).mode = .movedToTimeout →
          (runTrace initLoop tr).sn_notifier = false ∧
            (runTrace initLoop tr).ping_worker_joined = true) ∧
      ∀ tr : List LoopInput,
        (runTrace initLoop tr).mode = .movedToTimeout →
        ∃ t1 t2 t3, tr = t1 ++ .pongExpiry :: t2 ++ .pongExpiry :: t3 ∧
          ∀ x ∈ t2, x.isFrame = false := by
  refine ⟨?_, ?_, ?_, ?_, ?_⟩
  · intro st hm
    rw [streamingStep.eq_def, if_neg (by simp [hm])]
    rcases htick : st.pong_timeout_tick with _ | tk
    · dsimp only
      simp [hm]
    · dsimp only
      by_cases h2 : STREAMING_STATE_PONG_TIMEOUT_MAX_COUNT ≤
          st.pong_timeout_count + 1
      · rw [if_pos h2]
        simp [h2]
      · rw [if_neg h2]
        simp [hm, h2]
  · intro st i h
    by_cases hm : st.mode = .running
    · rcases i with _ | t | _ | m | e
      · rcases htick : st.pong_timeout_tick with _ | tk
        · have hs' : streamingStep st .pongExpiry = st := by
            rw [streamingStep.eq_def, if_neg (by simp [hm])]
            dsimp only
            rw [htick]
          rw [hs'] at h
          omega
        · refine ⟨rfl, by simp [htick], ?_⟩
          rw [streamingStep.eq_def, if_neg (by simp [hm])]
          dsimp only
          rw [htick]
          dsimp only
          split <;> rfl
      · have hs' : streamingStep st (.watchUpdate t) =
            { st with pong_timeout_tick := t } := by
          rw [streamingStep.eq_def, if_neg (by simp [hm])]
        rw [hs'] at h
        simp at h
      · have hs' : streamingStep st .watchClosed =
            { st with mode := .stopped } := by
          rw [streamingStep.eq_def, if_neg (by simp [hm])]
        rw [hs'] at h
        simp at h
      · by_cases hrec : ∃ d, m = .reconnect d
        · obtain ⟨d, rfl⟩ := hrec
          have hs' : streamingStep st (.frame (.reconnect d)) =
              { st with
                pong_timeout_tick := none
                pong_timeout_count := 0
                mode := .stopped } := by
            rw [streamingStep.eq_def, if_neg (by simp [hm])]
          rw [hs'] at h
          simp at h
        · rw [streamingStep_frame_nonreconnect hm m
            (by intro x hx; exact hrec ⟨x, hx⟩)] at h
          simp at h
      · have hs' : streamingStep st (.frameErr e) =
            { st with mode := .stopped } := by
          rw [streamingStep.eq_def, if_neg (by simp [hm])]
        rw [hs'] at h
        simp at h
    · rw [streamingStep_absorb hm] at h
      omega
  · intro st m hm
    by_cases hrec : ∃ d, m = .reconnect d
    · obtain ⟨d, rfl⟩ := hrec
      have hs' : streamingStep st (.frame (.reconnect d)) =
          { st with
            pong_timeout_tick := none
            pong_timeout_count := 0
            mode := .stopped } := by
        rw [streamingStep.eq_def, if_neg (by simp [hm])]
      rw [hs']
      exact ⟨rfl, rfl⟩
    · rw [streamingStep_frame_nonreconnect hm m
        (by intro x hx; exact hrec ⟨x, hx⟩)]
      exact ⟨rfl, rfl⟩
  · intro tr h
    exact (loopInv_runTrace tr initLoop
      ⟨fun _ => ⟨by simp [initLoop], rfl, rfl⟩,
        (by intro hcon; simp [initLoop] at hcon)⟩).2 h
  · intro tr h
    rcases timeout_needs_two tr initLoop rfl (by simp [initLoop]) h with
      ⟨hc1, _⟩ | hr
    · simp [initLoop] at hc1
    · exact hr

end Burz
